import Mathlib

/-!
Verification of the sbsearch core against its specification.

The geometry kernel (`src/sbsearch/util.py`) is embedded shallowly over ℝ:
numpy arrays of length 3 become `Vec3`, astropy `SkyCoord` values become
`SkyCoord` (an RA/Dec pair in radians), and the astropy primitives used by
the code (`separation`, `position_angle`, `wrap_at`,
`cartesian_to_spherical`) are embedded by their defining formulas.
The SQLite schema (`src/sbsearch/schema.py`) is embedded as a state machine
over table contents, with the triggers' delete statements applied exactly as
written in the DDL.
-/

namespace SBSearch

noncomputable section

open Real

/-- A 3-vector, the embedding of a numpy `[x, y, z]` array. -/
@[ext] structure Vec3 where
  x : ℝ
  y : ℝ
  z : ℝ

instance : Add Vec3 := ⟨fun a b => ⟨a.x + b.x, a.y + b.y, a.z + b.z⟩⟩

instance : SMul ℝ Vec3 := ⟨fun t v => ⟨t * v.x, t * v.y, t * v.z⟩⟩

theorem Vec3.add_def (a b : Vec3) : a + b = ⟨a.x + b.x, a.y + b.y, a.z + b.z⟩ := rfl

theorem Vec3.smul_def (t : ℝ) (v : Vec3) : t • v = ⟨t * v.x, t * v.y, t * v.z⟩ := rfl

/-- Dot product, embedding `(a * b).sum()`. -/
def dotV (a b : Vec3) : ℝ := a.x * b.x + a.y * b.y + a.z * b.z

/-- Cross product, embedding `np.cross(a, b)`. -/
def crossV (a b : Vec3) : Vec3 :=
  ⟨a.y * b.z - a.z * b.y, a.z * b.x - a.x * b.z, a.x * b.y - a.y * b.x⟩

/-- Euclidean norm, embedding `np.sqrt((v ** 2).sum())`. -/
def normV (v : Vec3) : ℝ := Real.sqrt (dotV v v)

instance : Neg Vec3 := ⟨fun v => ⟨-v.x, -v.y, -v.z⟩⟩

theorem Vec3.neg_def (v : Vec3) : -v = ⟨-v.x, -v.y, -v.z⟩ := rfl

/-- An RA/Dec sky coordinate in radians, the embedding of an astropy
`SkyCoord` scalar. -/
@[ext] structure SkyCoord where
  ra : ℝ
  dec : ℝ

/-- Embedding of `util.sc2xyz`: unit-sphere Cartesian coordinates of a
sky coordinate. -/
def sc2xyz (sc : SkyCoord) : Vec3 :=
  ⟨Real.cos sc.dec * Real.cos sc.ra, Real.cos sc.dec * Real.sin sc.ra, Real.sin sc.dec⟩

/-- Embedding of `util.vector_rotate`: Rodrigues rotation of `r` an angle
`th` counter-clockwise about `n`, written exactly as in the source
(`r * cos(-th) + n * (n*r).sum() * (1 - cos(-th)) + np.cross(r, n) * sin(-th)`). -/
def vector_rotate (r n : Vec3) (th : ℝ) : Vec3 :=
  Real.cos (-th) • r + (dotV n r * (1 - Real.cos (-th))) • n + Real.sin (-th) • crossV r n

theorem dotV_nonneg_self (v : Vec3) : 0 ≤ dotV v v := by
  unfold dotV
  nlinarith [sq_nonneg v.x, sq_nonneg v.y, sq_nonneg v.z]

theorem normV_sq (v : Vec3) : normV v ^ 2 = dotV v v := by
  unfold normV
  exact Real.sq_sqrt (dotV_nonneg_self v)

theorem dotV_self_eq_one_of_normV (v : Vec3) (h : normV v = 1) : dotV v v = 1 := by
  have := normV_sq v
  rw [h] at this
  linarith [this]

/-- Norm preservation for the Rodrigues rotation about a unit axis, at the
level of squared norms. -/
theorem dotV_vector_rotate (r n : Vec3) (th : ℝ) (hn : dotV n n = 1) :
    dotV (vector_rotate r n th) (vector_rotate r n th) = dotV r r := by
  have hcs : Real.cos th ^ 2 + Real.sin th ^ 2 = 1 := Real.cos_sq_add_sin_sq th
  have hd : n.x ^ 2 + n.y ^ 2 + n.z ^ 2 = 1 := by unfold dotV at hn; nlinarith [hn]
  simp only [vector_rotate, Real.cos_neg, Real.sin_neg, Vec3.add_def, Vec3.smul_def,
    dotV, crossV]
  linear_combination
    (((n.x * r.x + n.y * r.y + n.z * r.z) ^ 2 * (1 - Real.cos th) ^ 2 +
        (1 - Real.cos th ^ 2) * (r.x ^ 2 + r.y ^ 2 + r.z ^ 2)) : ℝ) * hd +
    ((r.x ^ 2 + r.y ^ 2 + r.z ^ 2) * (n.x ^ 2 + n.y ^ 2 + n.z ^ 2) -
        (n.x * r.x + n.y * r.y + n.z * r.z) ^ 2) * hcs

theorem vector_rotate_zero (r n : Vec3) : vector_rotate r n 0 = r := by
  simp only [vector_rotate, neg_zero, Real.cos_zero, Real.sin_zero, Vec3.smul_def,
    Vec3.add_def]
  ext <;> ring

theorem vector_rotate_neg_cancel (r n : Vec3) (th : ℝ) (hn : dotV n n = 1) :
    vector_rotate (vector_rotate r n th) n (-th) = r := by
  have hcs : Real.cos th ^ 2 + Real.sin th ^ 2 = 1 := Real.cos_sq_add_sin_sq th
  have hd : n.x ^ 2 + n.y ^ 2 + n.z ^ 2 = 1 := by unfold dotV at hn; nlinarith [hn]
  simp only [vector_rotate, Real.cos_neg, Real.sin_neg, neg_neg, Vec3.add_def,
    Vec3.smul_def, dotV, crossV]
  ext
  · linear_combination
      (r.x * (1 - Real.cos th ^ 2) +
        (n.x * r.x + n.y * r.y + n.z * r.z) * n.x * (1 - Real.cos th) ^ 2) * hd +
      (r.x * (n.x ^ 2 + n.y ^ 2 + n.z ^ 2) -
        (n.x * r.x + n.y * r.y + n.z * r.z) * n.x) * hcs
  · linear_combination
      (r.y * (1 - Real.cos th ^ 2) +
        (n.x * r.x + n.y * r.y + n.z * r.z) * n.y * (1 - Real.cos th) ^ 2) * hd +
      (r.y * (n.x ^ 2 + n.y ^ 2 + n.z ^ 2) -
        (n.x * r.x + n.y * r.y + n.z * r.z) * n.y) * hcs
  · linear_combination
      (r.z * (1 - Real.cos th ^ 2) +
        (n.x * r.x + n.y * r.y + n.z * r.z) * n.z * (1 - Real.cos th) ^ 2) * hd +
      (r.z * (n.x ^ 2 + n.y ^ 2 + n.z ^ 2) -
        (n.x * r.x + n.y * r.y + n.z * r.z) * n.z) * hcs

/-- C8: for every vector `r`, unit axis `n` and angle `th`, `vector_rotate`
preserves the norm, rotating by `0` is the identity, and rotating by `th`
then `-th` returns the original vector. -/
theorem vector_rotate_isometry_id_inverse (r n : Vec3) (th : ℝ) (hn : normV n = 1) :
    normV (vector_rotate r n th) = normV r ∧
    vector_rotate r n 0 = r ∧
    vector_rotate (vector_rotate r n th) n (-th) = r := by
  have hd : dotV n n = 1 := dotV_self_eq_one_of_normV n hn
  refine ⟨?_, vector_rotate_zero r n, vector_rotate_neg_cancel r n th hd⟩
  unfold normV
  rw [dotV_vector_rotate r n th hd]

/-- Witness for C8 at `r = (1,2,3)`, `n = (0,0,1)`, `th = π`. -/
theorem vector_rotate_isometry_id_inverse_witness :
    normV ⟨0, 0, 1⟩ = 1 ∧
    (normV (vector_rotate ⟨1, 2, 3⟩ ⟨0, 0, 1⟩ Real.pi) = normV ⟨1, 2, 3⟩ ∧
      vector_rotate ⟨1, 2, 3⟩ ⟨0, 0, 1⟩ 0 = ⟨1, 2, 3⟩ ∧
      vector_rotate (vector_rotate ⟨1, 2, 3⟩ ⟨0, 0, 1⟩ Real.pi) ⟨0, 0, 1⟩ (-Real.pi) =
        ⟨1, 2, 3⟩) := by
  have hn : normV (⟨0, 0, 1⟩ : Vec3) = 1 := by
    unfold normV dotV
    norm_num
  exact ⟨hn, vector_rotate_isometry_id_inverse ⟨1, 2, 3⟩ ⟨0, 0, 1⟩ Real.pi hn⟩

/-- Two-argument arctangent with the numpy/astropy convention, realized by
the complex argument: `atan2 y x = arg (x + y i) ∈ (-π, π]`. -/
def atan2 (y x : ℝ) : ℝ := Complex.arg ⟨x, y⟩

/-- Embedding of astropy `cartesian_to_spherical` composed with the
`SkyCoord(ra, dec)` constructor, as used at the end of
`util.spherical_interpolation`: `lat = atan2(z, hypot(x, y))`,
`lon = atan2(y, x)`. -/
def xyz2sc (v : Vec3) : SkyCoord :=
  ⟨atan2 v.y v.x, atan2 v.z (Real.sqrt (v.x ^ 2 + v.y ^ 2))⟩

theorem complex_mk_abs (x y : ℝ) : Complex.abs ⟨x, y⟩ = Real.sqrt (x ^ 2 + y ^ 2) := by
  rw [Complex.abs_apply, Complex.normSq_mk]
  ring_nf

theorem sin_atan2 (y x : ℝ) :
    Real.sin (atan2 y x) = y / Real.sqrt (x ^ 2 + y ^ 2) := by
  unfold atan2
  rw [Complex.sin_arg, complex_mk_abs]

theorem cos_atan2 (y x : ℝ) (h : (⟨x, y⟩ : ℂ) ≠ 0) :
    Real.cos (atan2 y x) = x / Real.sqrt (x ^ 2 + y ^ 2) := by
  unfold atan2
  rw [Complex.cos_arg h, complex_mk_abs]

theorem sc2xyz_unitSq (c : SkyCoord) : dotV (sc2xyz c) (sc2xyz c) = 1 := by
  simp only [sc2xyz, dotV]
  linear_combination (Real.cos c.dec) ^ 2 * Real.sin_sq_add_cos_sq c.ra +
    Real.sin_sq_add_cos_sq c.dec

/-- Round trip: converting a unit Cartesian vector to spherical coordinates
and back is the identity. -/
theorem sc2xyz_xyz2sc (v : Vec3) (hv : dotV v v = 1) : sc2xyz (xyz2sc v) = v := by
  have hxy : (0 : ℝ) ≤ v.x ^ 2 + v.y ^ 2 := by positivity
  set s : ℝ := Real.sqrt (v.x ^ 2 + v.y ^ 2) with hs_def
  have hs_nonneg : 0 ≤ s := Real.sqrt_nonneg _
  have hs_sq : s ^ 2 = v.x ^ 2 + v.y ^ 2 := Real.sq_sqrt hxy
  have hsz : s ^ 2 + v.z ^ 2 = 1 := by
    rw [hs_sq]; unfold dotV at hv; nlinarith [hv]
  have hsz_ne : (⟨s, v.z⟩ : ℂ) ≠ 0 := by
    intro hc
    rw [Complex.ext_iff] at hc
    simp only [Complex.zero_re, Complex.zero_im] at hc
    rw [hc.1, hc.2] at hsz
    norm_num at hsz
  have habs : Real.sqrt (s ^ 2 + v.z ^ 2) = 1 := by rw [hsz, Real.sqrt_one]
  have hcos_lat : Real.cos (atan2 v.z s) = s := by
    rw [cos_atan2 v.z s hsz_ne, habs, div_one]
  have hsin_lat : Real.sin (atan2 v.z s) = v.z := by
    rw [sin_atan2 v.z s, habs, div_one]
  simp only [sc2xyz, xyz2sc, ← hs_def, hcos_lat, hsin_lat]
  by_cases hxy0 : v.x = 0 ∧ v.y = 0
  · have hs0 : s = 0 := by
      rw [hs_def, hxy0.1, hxy0.2]
      simp
    ext <;> simp [hs0, hxy0.1, hxy0.2]
  · have hne : (⟨v.x, v.y⟩ : ℂ) ≠ 0 := by
      intro hc
      rw [Complex.ext_iff] at hc
      simp only [Complex.zero_re, Complex.zero_im] at hc
      exact hxy0 ⟨hc.1, hc.2⟩
    have hs_pos : 0 < s := by
      rcases lt_or_eq_of_le hs_nonneg with h | h
      · exact h
      · exfalso
        have : v.x ^ 2 + v.y ^ 2 = 0 := by rw [← hs_sq, ← h]; ring
        exact hxy0 ⟨by nlinarith [sq_nonneg v.x, sq_nonneg v.y],
          by nlinarith [sq_nonneg v.x, sq_nonneg v.y]⟩
    have hcos_lon : Real.cos (atan2 v.y v.x) = v.x / s := cos_atan2 v.y v.x hne
    have hsin_lon : Real.sin (atan2 v.y v.x) = v.y / s := sin_atan2 v.y v.x
    rw [hcos_lon, hsin_lon]
    ext
    · show s * (v.x / s) = v.x
      field_simp
    · show s * (v.y / s) = v.y
      field_simp
    · rfl

/-- Embedding of astropy `SkyCoord.separation`: the great-circle arc angle
between the two sky positions, i.e. the arccosine of the dot product of
their unit vectors (astropy computes this with the equivalent Vincenty
arctangent formula). -/
def separation (c0 c1 : SkyCoord) : ℝ := Real.arccos (dotV (sc2xyz c0) (sc2xyz c1))

/-- Embedding of `util.spherical_interpolation`: rotate `c0` about the
normalized cross product of the two unit vectors by the fraction
`dt = (t2 - t0) / (t1 - t0)` of the separation angle, then convert back to
spherical coordinates. -/
def spherical_interpolation (c0 c1 : SkyCoord) (t0 t1 t2 : ℝ) : SkyCoord :=
  let dt := (t2 - t0) / (t1 - t0)
  let w := separation c0 c1
  let a := sc2xyz c0
  let b := sc2xyz c1
  let n0 := crossV a b
  let n := (1 / Real.sqrt (dotV n0 n0)) • n0
  xyz2sc (vector_rotate a n (w * dt))

theorem lagrange_identity (a b : Vec3) :
    dotV (crossV a b) (crossV a b) = dotV a a * dotV b b - dotV a b ^ 2 := by
  unfold dotV crossV
  ring

theorem eq_of_unit_dot_one (a b : Vec3) (ha : dotV a a = 1) (hb : dotV b b = 1)
    (hab : dotV a b = 1) : a = b := by
  unfold dotV at ha hb hab
  have h : (a.x - b.x) ^ 2 + (a.y - b.y) ^ 2 + (a.z - b.z) ^ 2 = 0 := by
    linear_combination ha + hb - 2 * hab
  ext
  · nlinarith [sq_nonneg (a.x - b.x), sq_nonneg (a.y - b.y), sq_nonneg (a.z - b.z)]
  · nlinarith [sq_nonneg (a.x - b.x), sq_nonneg (a.y - b.y), sq_nonneg (a.z - b.z)]
  · nlinarith [sq_nonneg (a.x - b.x), sq_nonneg (a.y - b.y), sq_nonneg (a.z - b.z)]

theorem neg_of_unit_dot_negone (a b : Vec3) (ha : dotV a a = 1) (hb : dotV b b = 1)
    (hab : dotV a b = -1) : a = -b := by
  unfold dotV at ha hb hab
  have h : (a.x + b.x) ^ 2 + (a.y + b.y) ^ 2 + (a.z + b.z) ^ 2 = 0 := by
    linear_combination ha + hb + 2 * hab
  rw [Vec3.neg_def]
  ext
  · show a.x = -b.x
    nlinarith [sq_nonneg (a.x + b.x), sq_nonneg (a.y + b.y), sq_nonneg (a.z + b.z)]
  · show a.y = -b.y
    nlinarith [sq_nonneg (a.x + b.x), sq_nonneg (a.y + b.y), sq_nonneg (a.z + b.z)]
  · show a.z = -b.z
    nlinarith [sq_nonneg (a.x + b.x), sq_nonneg (a.y + b.y), sq_nonneg (a.z + b.z)]

theorem abs_dot_le_one (a b : Vec3) (ha : dotV a a = 1) (hb : dotV b b = 1) :
    dotV a b ^ 2 ≤ 1 := by
  have h := dotV_nonneg_self (crossV a b)
  rw [lagrange_identity, ha, hb] at h
  linarith [h]

instance : Sub Vec3 := ⟨fun a b => ⟨a.x - b.x, a.y - b.y, a.z - b.z⟩⟩

theorem Vec3.sub_def (a b : Vec3) : a - b = ⟨a.x - b.x, a.y - b.y, a.z - b.z⟩ := rfl

theorem dotV_smul_left (t : ℝ) (u v : Vec3) : dotV (t • u) v = t * dotV u v := by
  simp only [dotV, Vec3.smul_def]
  ring

theorem crossV_smul_right (t : ℝ) (u v : Vec3) : crossV u (t • v) = t • crossV u v := by
  simp only [crossV, Vec3.smul_def]
  ext <;> ring

theorem Vec3.smul_assoc (t u : ℝ) (v : Vec3) : t • (u • v) = (t * u) • v := by
  simp only [Vec3.smul_def]
  ext <;> ring

theorem dotV_crossV_self (a b : Vec3) : dotV (crossV a b) a = 0 := by
  simp only [dotV, crossV]
  ring

theorem triple_product (a b : Vec3) :
    crossV a (crossV a b) = dotV a b • a - dotV a a • b := by
  simp only [dotV, crossV, Vec3.smul_def, Vec3.sub_def]
  ext <;> ring

/-- The heart of the endpoint property: rotating the unit vector `a` about
the normalized cross product of `a` and `b` by the full separation angle
yields `b`, provided the cross product is nonzero. -/
theorem vector_rotate_to_target (a b : Vec3) (ha : dotV a a = 1) (w : ℝ)
    (hcw : Real.cos w = dotV a b)
    (hsw : Real.sin w = Real.sqrt (dotV (crossV a b) (crossV a b)))
    (hcr : dotV (crossV a b) (crossV a b) ≠ 0) :
    vector_rotate a ((1 / Real.sqrt (dotV (crossV a b) (crossV a b))) • crossV a b) w
      = b := by
  have hnn := dotV_nonneg_self (crossV a b)
  set s : ℝ := Real.sqrt (dotV (crossV a b) (crossV a b)) with hs_def
  have hs_sq : s ^ 2 = dotV (crossV a b) (crossV a b) := Real.sq_sqrt hnn
  have hs_ne : s ≠ 0 := by
    intro h0
    rw [h0] at hs_sq
    exact hcr (by linarith [hs_sq])
  unfold vector_rotate
  rw [Real.cos_neg, Real.sin_neg, dotV_smul_left, dotV_crossV_self,
    crossV_smul_right, triple_product, ha, hcw, hsw]
  simp only [Vec3.smul_assoc]
  have hss : -s * (1 / s) = -1 := by field_simp
  rw [hss]
  simp only [Vec3.smul_def, Vec3.add_def, Vec3.sub_def]
  ext <;> ring

theorem sc2xyz_origin : sc2xyz ⟨0, 0⟩ = ⟨1, 0, 0⟩ := by
  ext <;> simp [sc2xyz]

theorem sc2xyz_quarter : sc2xyz ⟨Real.pi / 2, 0⟩ = ⟨0, 1, 0⟩ := by
  ext <;> simp [sc2xyz]

theorem sc2xyz_anti : sc2xyz ⟨Real.pi, 0⟩ = ⟨-1, 0, 0⟩ := by
  ext <;> simp [sc2xyz]

theorem normV_zero_vec : normV ⟨0, 0, 0⟩ = 0 := by
  unfold normV dotV
  norm_num

/-- C6 counterexample: the two anchors `(ra, dec) = (0, 0)` and `(π, 0)` are
distinct points of the unit sphere, yet the normalization divisor
`sqrt((n ** 2).sum())` computed by `spherical_interpolation` is zero, so the
division is not safe for this pair of distinct anchors. -/
theorem spherical_interpolation_axis_counterexample :
    sc2xyz ⟨0, 0⟩ ≠ sc2xyz ⟨Real.pi, 0⟩ ∧
    normV (crossV (sc2xyz ⟨0, 0⟩) (sc2xyz ⟨Real.pi, 0⟩)) = 0 := by
  constructor
  · rw [sc2xyz_origin, sc2xyz_anti]
    intro h
    have hx := congrArg Vec3.x h
    norm_num at hx
  · rw [sc2xyz_origin, sc2xyz_anti]
    have hc : crossV ⟨1, 0, 0⟩ ⟨-1, 0, 0⟩ = (⟨0, 0, 0⟩ : Vec3) := by
      unfold crossV
      ext <;> norm_num
    rw [hc, normV_zero_vec]

/-- C6 (amended): coincident anchors give the zero rotation axis and a zero
normalization divisor (and the code has no special case guarding this);
for anchors whose unit vectors are distinct and not antipodal the divisor
is nonzero and the division is safe.  (The original claim asserted a
nonzero divisor for all distinct anchors; antipodal anchors refute that.) -/
theorem spherical_interpolation_axis_cases (c0 c1 : SkyCoord) :
    (sc2xyz c0 = sc2xyz c1 →
      crossV (sc2xyz c0) (sc2xyz c1) = ⟨0, 0, 0⟩ ∧
        normV (crossV (sc2xyz c0) (sc2xyz c1)) = 0) ∧
    (sc2xyz c0 ≠ sc2xyz c1 → sc2xyz c0 ≠ -sc2xyz c1 →
      normV (crossV (sc2xyz c0) (sc2xyz c1)) ≠ 0) := by
  have ha := sc2xyz_unitSq c0
  have hb := sc2xyz_unitSq c1
  constructor
  · intro h
    have hc : crossV (sc2xyz c0) (sc2xyz c1) = (⟨0, 0, 0⟩ : Vec3) := by
      rw [h]
      unfold crossV
      ext <;> ring
    rw [hc, normV_zero_vec]
    exact ⟨rfl, rfl⟩
  · intro hne hnanti h0
    have hdd : dotV (crossV (sc2xyz c0) (sc2xyz c1)) (crossV (sc2xyz c0) (sc2xyz c1)) = 0 := by
      have := normV_sq (crossV (sc2xyz c0) (sc2xyz c1))
      rw [h0] at this
      linarith [this]
    rw [lagrange_identity, ha, hb] at hdd
    have hfac : (dotV (sc2xyz c0) (sc2xyz c1) - 1) * (dotV (sc2xyz c0) (sc2xyz c1) + 1) = 0 := by
      linear_combination -hdd
    rcases mul_eq_zero.mp hfac with h1 | h1
    · exact hne (eq_of_unit_dot_one _ _ ha hb (by linarith [sub_eq_zero.mp h1]))
    · exact hnanti (neg_of_unit_dot_negone _ _ ha hb (by linarith))

/-- Witness for C6: at coincident anchors the axis degenerates to `(0,0,0)`
with zero divisor; at the distinct non-antipodal pair `(0,0)`, `(π/2,0)` the
divisor is nonzero. -/
theorem spherical_interpolation_axis_cases_witness :
    (crossV (sc2xyz ⟨0, 0⟩) (sc2xyz ⟨0, 0⟩) = ⟨0, 0, 0⟩ ∧
      normV (crossV (sc2xyz ⟨0, 0⟩) (sc2xyz ⟨0, 0⟩)) = 0) ∧
    normV (crossV (sc2xyz ⟨0, 0⟩) (sc2xyz ⟨Real.pi / 2, 0⟩)) ≠ 0 := by
  have hne : sc2xyz ⟨0, 0⟩ ≠ sc2xyz ⟨Real.pi / 2, 0⟩ := by
    rw [sc2xyz_origin, sc2xyz_quarter]
    intro h
    have hx := congrArg Vec3.x h
    norm_num at hx
  have hnanti : sc2xyz ⟨0, 0⟩ ≠ -sc2xyz ⟨Real.pi / 2, 0⟩ := by
    rw [sc2xyz_origin, sc2xyz_quarter]
    intro h
    have hx := congrArg Vec3.x h
    simp only [Vec3.neg_def] at hx
    norm_num at hx
  exact ⟨(spherical_interpolation_axis_cases ⟨0, 0⟩ ⟨0, 0⟩).1 rfl,
    (spherical_interpolation_axis_cases ⟨0, 0⟩ ⟨Real.pi / 2, 0⟩).2 hne hnanti⟩

/-- Interpolating at `t2 = t0` returns the Cartesian position of `c0`: the
fraction `dt` is `0`, so the rotation is by angle `0` whatever the axis. -/
theorem interp_t0_eq (c0 c1 : SkyCoord) (t0 t1 : ℝ) :
    sc2xyz (spherical_interpolation c0 c1 t0 t1 t0) = sc2xyz c0 := by
  have hdt : (t0 - t0) / (t1 - t0) = 0 := by rw [sub_self, zero_div]
  simp only [spherical_interpolation, hdt, mul_zero, vector_rotate_zero]
  exact sc2xyz_xyz2sc _ (sc2xyz_unitSq c0)

/-- Interpolating at `t2 = t1` returns the Cartesian position of `c1`, for
any distinct anchors of the real-number model.  Note the antipodal branch
of this proof is an artifact of the model's total division (`1/0 = 0`
collapses the axis to the zero vector); at antipodal anchors the source
divides `0/0` and produces NaN, which is why C7 is stated only for
non-antipodal anchors. -/
theorem interp_t1_eq (c0 c1 : SkyCoord) (t0 t1 : ℝ)
    (ht : t0 ≠ t1) (hab : sc2xyz c0 ≠ sc2xyz c1) :
    sc2xyz (spherical_interpolation c0 c1 t0 t1 t1) = sc2xyz c1 := by
  have ha := sc2xyz_unitSq c0
  have hb := sc2xyz_unitSq c1
  have hdt : (t1 - t0) / (t1 - t0) = 1 := div_self (sub_ne_zero.mpr ht.symm)
  simp only [spherical_interpolation, hdt, mul_one]
  have hd2 : dotV (sc2xyz c0) (sc2xyz c1) ^ 2 ≤ 1 := abs_dot_le_one _ _ ha hb
  have hcw : Real.cos (separation c0 c1) = dotV (sc2xyz c0) (sc2xyz c1) :=
    Real.cos_arccos (by nlinarith [hd2]) (by nlinarith [hd2])
  have hlag : dotV (crossV (sc2xyz c0) (sc2xyz c1)) (crossV (sc2xyz c0) (sc2xyz c1)) =
      1 - dotV (sc2xyz c0) (sc2xyz c1) ^ 2 := by
    rw [lagrange_identity, ha, hb]
    ring
  have hsw : Real.sin (separation c0 c1) =
      Real.sqrt (dotV (crossV (sc2xyz c0) (sc2xyz c1)) (crossV (sc2xyz c0) (sc2xyz c1))) := by
    unfold separation
    rw [Real.sin_arccos, hlag]
  by_cases hcr : dotV (crossV (sc2xyz c0) (sc2xyz c1)) (crossV (sc2xyz c0) (sc2xyz c1)) = 0
  · rw [hcr] at hlag
    have hfac : (dotV (sc2xyz c0) (sc2xyz c1) - 1) *
        (dotV (sc2xyz c0) (sc2xyz c1) + 1) = 0 := by
      linear_combination hlag
    rcases mul_eq_zero.mp hfac with h1 | h1
    · exact absurd (eq_of_unit_dot_one _ _ ha hb (by linarith [sub_eq_zero.mp h1])) hab
    · have haeq : sc2xyz c0 = -sc2xyz c1 := neg_of_unit_dot_negone _ _ ha hb (by linarith)
      have hcz : crossV (sc2xyz c0) (sc2xyz c1) = (⟨0, 0, 0⟩ : Vec3) := by
        rw [haeq]
        simp only [crossV, Vec3.neg_def]
        ext <;> ring
      rw [hcz]
      have hrot : vector_rotate (sc2xyz c0)
          ((1 / Real.sqrt (dotV (⟨0, 0, 0⟩ : Vec3) ⟨0, 0, 0⟩)) • (⟨0, 0, 0⟩ : Vec3))
          (separation c0 c1) = Real.cos (separation c0 c1) • sc2xyz c0 := by
        simp only [vector_rotate, Real.cos_neg, Real.sin_neg, dotV, crossV,
          Vec3.smul_def, Vec3.add_def]
        ext <;> ring
      rw [hrot, hcw]
      have hdm1 : dotV (sc2xyz c0) (sc2xyz c1) = -1 := by linarith
      have htarget : dotV (sc2xyz c0) (sc2xyz c1) • sc2xyz c0 = sc2xyz c1 := by
        rw [hdm1, haeq]
        simp only [Vec3.smul_def, Vec3.neg_def]
        ext <;> ring
      rw [htarget]
      exact sc2xyz_xyz2sc _ hb
  · rw [vector_rotate_to_target (sc2xyz c0) (sc2xyz c1) ha (separation c0 c1) hcw hsw hcr]
    exact sc2xyz_xyz2sc _ hb

/-- For anchors with distinct, non-antipodal unit vectors the squared norm
of their cross product is nonzero. -/
theorem cross_dotSq_ne_zero (c0 c1 : SkyCoord) (hab : sc2xyz c0 ≠ sc2xyz c1)
    (hnanti : sc2xyz c0 ≠ -sc2xyz c1) :
    dotV (crossV (sc2xyz c0) (sc2xyz c1)) (crossV (sc2xyz c0) (sc2xyz c1)) ≠ 0 := by
  have ha := sc2xyz_unitSq c0
  have hb := sc2xyz_unitSq c1
  intro h0
  rw [lagrange_identity, ha, hb] at h0
  have hfac : (dotV (sc2xyz c0) (sc2xyz c1) - 1) *
      (dotV (sc2xyz c0) (sc2xyz c1) + 1) = 0 := by
    linear_combination -h0
  rcases mul_eq_zero.mp hfac with h1 | h1
  · exact hab (eq_of_unit_dot_one _ _ ha hb (by linarith [sub_eq_zero.mp h1]))
  · exact hnanti (neg_of_unit_dot_negone _ _ ha hb (by linarith))

/-- Dividing a vector by the square root of its squared norm produces a
unit vector, whenever that squared norm is nonzero. -/
theorem normV_normalize (v : Vec3) (h : dotV v v ≠ 0) :
    normV ((1 / Real.sqrt (dotV v v)) • v) = 1 := by
  have hnn := dotV_nonneg_self v
  have hsq : Real.sqrt (dotV v v) ^ 2 = dotV v v := Real.sq_sqrt hnn
  unfold normV
  have hd : dotV ((1 / Real.sqrt (dotV v v)) • v) ((1 / Real.sqrt (dotV v v)) • v) =
      (1 / Real.sqrt (dotV v v)) ^ 2 * dotV v v := by
    simp only [dotV, Vec3.smul_def]
    ring
  rw [hd, div_pow, one_pow, hsq, one_div, inv_mul_cancel₀ h, Real.sqrt_one]

/-- C7 counterexample: the anchors `(0,0)` and `(π,0)` are distinct points
of the unit sphere, yet the normalization divisor computed by
`spherical_interpolation` for them is zero and the "normalized" axis is the
zero vector, not a unit vector: no rotation about the normalized
cross-product axis exists for this distinct pair (the source divides `0/0`
here, yielding NaN rather than `c1`), refuting the claim's quantification
over every pair of distinct anchors. -/
theorem spherical_interpolation_endpoints_counterexample :
    sc2xyz ⟨0, 0⟩ ≠ sc2xyz ⟨Real.pi, 0⟩ ∧
    Real.sqrt (dotV (crossV (sc2xyz ⟨0, 0⟩) (sc2xyz ⟨Real.pi, 0⟩))
        (crossV (sc2xyz ⟨0, 0⟩) (sc2xyz ⟨Real.pi, 0⟩))) = 0 ∧
    (1 / Real.sqrt (dotV (crossV (sc2xyz ⟨0, 0⟩) (sc2xyz ⟨Real.pi, 0⟩))
        (crossV (sc2xyz ⟨0, 0⟩) (sc2xyz ⟨Real.pi, 0⟩)))) •
      crossV (sc2xyz ⟨0, 0⟩) (sc2xyz ⟨Real.pi, 0⟩) = (⟨0, 0, 0⟩ : Vec3) := by
  have hc : crossV (sc2xyz ⟨0, 0⟩) (sc2xyz ⟨Real.pi, 0⟩) = (⟨0, 0, 0⟩ : Vec3) := by
    rw [sc2xyz_origin, sc2xyz_anti]
    unfold crossV
    ext <;> norm_num
  refine ⟨?_, ?_, ?_⟩
  · rw [sc2xyz_origin, sc2xyz_anti]
    intro h
    have hx := congrArg Vec3.x h
    norm_num at hx
  · rw [hc]
    show Real.sqrt (dotV ⟨0, 0, 0⟩ ⟨0, 0, 0⟩) = 0
    unfold dotV
    norm_num
  · rw [hc, Vec3.smul_def]
    ext <;> simp

/-- C7 (amended): for anchors at distinct times whose unit vectors are
distinct and not antipodal, the normalization divisor is nonzero and the
normalized cross-product axis is a genuine unit vector; interpolating at
`t2 = t0` returns the position of `c0` and interpolating at `t2 = t1`
returns the position of `c1`: the rotation of `c0` by the full separation
angle about that unit axis yields `c1`.  (Antipodal anchors are distinct
but give a zero divisor, so the original claim over all distinct pairs
fails; they are excluded here.) -/
theorem spherical_interpolation_endpoints (c0 c1 : SkyCoord) (t0 t1 : ℝ)
    (ht : t0 ≠ t1) (hab : sc2xyz c0 ≠ sc2xyz c1)
    (hnanti : sc2xyz c0 ≠ -sc2xyz c1) :
    normV ((1 / Real.sqrt (dotV (crossV (sc2xyz c0) (sc2xyz c1))
        (crossV (sc2xyz c0) (sc2xyz c1)))) • crossV (sc2xyz c0) (sc2xyz c1)) = 1 ∧
    sc2xyz (spherical_interpolation c0 c1 t0 t1 t0) = sc2xyz c0 ∧
    sc2xyz (spherical_interpolation c0 c1 t0 t1 t1) = sc2xyz c1 := by
  have hcr := cross_dotSq_ne_zero c0 c1 hab hnanti
  have ha := sc2xyz_unitSq c0
  have hb := sc2xyz_unitSq c1
  refine ⟨normV_normalize _ hcr, interp_t0_eq c0 c1 t0 t1, ?_⟩
  have hdt : (t1 - t0) / (t1 - t0) = 1 := div_self (sub_ne_zero.mpr ht.symm)
  simp only [spherical_interpolation, hdt, mul_one]
  have hd2 : dotV (sc2xyz c0) (sc2xyz c1) ^ 2 ≤ 1 := abs_dot_le_one _ _ ha hb
  have hcw : Real.cos (separation c0 c1) = dotV (sc2xyz c0) (sc2xyz c1) :=
    Real.cos_arccos (by nlinarith [hd2]) (by nlinarith [hd2])
  have hlag : dotV (crossV (sc2xyz c0) (sc2xyz c1)) (crossV (sc2xyz c0) (sc2xyz c1)) =
      1 - dotV (sc2xyz c0) (sc2xyz c1) ^ 2 := by
    rw [lagrange_identity, ha, hb]
    ring
  have hsw : Real.sin (separation c0 c1) =
      Real.sqrt (dotV (crossV (sc2xyz c0) (sc2xyz c1)) (crossV (sc2xyz c0) (sc2xyz c1))) := by
    unfold separation
    rw [Real.sin_arccos, hlag]
  rw [vector_rotate_to_target (sc2xyz c0) (sc2xyz c1) ha (separation c0 c1) hcw hsw hcr]
  exact sc2xyz_xyz2sc _ hb

/-- Witness for the amended C7 at the anchors `(0,0)` (time 0) and
`(π/2, 0)` (time 1), which are distinct and not antipodal. -/
theorem spherical_interpolation_endpoints_witness :
    ((0 : ℝ) ≠ 1 ∧ sc2xyz ⟨0, 0⟩ ≠ sc2xyz ⟨Real.pi / 2, 0⟩ ∧
      sc2xyz ⟨0, 0⟩ ≠ -sc2xyz ⟨Real.pi / 2, 0⟩) ∧
    (normV ((1 / Real.sqrt (dotV (crossV (sc2xyz ⟨0, 0⟩) (sc2xyz ⟨Real.pi / 2, 0⟩))
        (crossV (sc2xyz ⟨0, 0⟩) (sc2xyz ⟨Real.pi / 2, 0⟩)))) •
        crossV (sc2xyz ⟨0, 0⟩) (sc2xyz ⟨Real.pi / 2, 0⟩)) = 1 ∧
      sc2xyz (spherical_interpolation ⟨0, 0⟩ ⟨Real.pi / 2, 0⟩ 0 1 0) = sc2xyz ⟨0, 0⟩ ∧
      sc2xyz (spherical_interpolation ⟨0, 0⟩ ⟨Real.pi / 2, 0⟩ 0 1 1) =
        sc2xyz ⟨Real.pi / 2, 0⟩) := by
  have h01 : (0 : ℝ) ≠ 1 := by norm_num
  have hne : sc2xyz ⟨0, 0⟩ ≠ sc2xyz ⟨Real.pi / 2, 0⟩ := by
    rw [sc2xyz_origin, sc2xyz_quarter]
    intro h
    have hx := congrArg Vec3.x h
    norm_num at hx
  have hnanti : sc2xyz ⟨0, 0⟩ ≠ -sc2xyz ⟨Real.pi / 2, 0⟩ := by
    rw [sc2xyz_origin, sc2xyz_quarter]
    intro h
    have hx := congrArg Vec3.x h
    simp only [Vec3.neg_def] at hx
    norm_num at hx
  exact ⟨⟨h01, hne, hnanti⟩,
    spherical_interpolation_endpoints ⟨0, 0⟩ ⟨Real.pi / 2, 0⟩ 0 1 h01 hne hnanti⟩

/-- The space-time box returned by `util.eph_to_limits` (the 8-tuple
`jda, jdc, min(x), max(x), min(y), max(y), min(z), max(z)`). -/
structure EphLimits where
  jda : ℝ
  jdc : ℝ
  xmin : ℝ
  xmax : ℝ
  ymin : ℝ
  ymax : ℝ
  zmin : ℝ
  zmax : ℝ

/-- Embedding of `util.eph_to_limits`: interpolate half a step before and
after the middle of a three-point ephemeris and take per-axis extrema of the
three Cartesian positions.  `half_step` is carried directly in days (the
astropy unit conversion `half_step.to('day').value` is the identity here). -/
def eph_to_limits (jd : Fin 3 → ℝ) (eph : Fin 3 → SkyCoord) (half_step : ℝ) : EphLimits :=
  let jda := jd 1 - half_step
  let jdc := jd 1 + half_step
  let a := spherical_interpolation (eph 0) (eph 1) (jd 0) (jd 1) jda
  let b := eph 1
  let c := spherical_interpolation (eph 1) (eph 2) (jd 1) (jd 2) jdc
  let va := sc2xyz a
  let vb := sc2xyz b
  let vc := sc2xyz c
  ⟨jda, jdc, min va.x (min vb.x vc.x), max va.x (max vb.x vc.x),
    min va.y (min vb.y vc.y), max va.y (max vb.y vc.y),
    min va.z (min vb.z vc.z), max va.z (max vb.z vc.z)⟩

/-- Membership of a Cartesian position in the spatial part of a box. -/
def inBox (L : EphLimits) (v : Vec3) : Prop :=
  L.xmin ≤ v.x ∧ v.x ≤ L.xmax ∧ L.ymin ≤ v.y ∧ v.y ≤ L.ymax ∧
    L.zmin ≤ v.z ∧ v.z ≤ L.zmax

open scoped Classical in
/-- Modelled from the spec: the sampled trajectory of a three-point
ephemeris, great-circle interpolated between consecutive samples
("consecutive points in time define a motion segment"). -/
def trajectory (jd : Fin 3 → ℝ) (eph : Fin 3 → SkyCoord) (t : ℝ) : SkyCoord :=
  if t ≤ jd 1 then spherical_interpolation (eph 0) (eph 1) (jd 0) (jd 1) t
  else spherical_interpolation (eph 1) (eph 2) (jd 1) (jd 2) t

theorem sc2xyz_equator (r : ℝ) : sc2xyz ⟨r, 0⟩ = ⟨Real.cos r, Real.sin r, 0⟩ := by
  ext <;> simp [sc2xyz]

theorem separation_equator (r0 r1 : ℝ) (h0 : 0 ≤ r1 - r0) (h1 : r1 - r0 ≤ Real.pi) :
    separation ⟨r0, 0⟩ ⟨r1, 0⟩ = r1 - r0 := by
  unfold separation
  rw [sc2xyz_equator, sc2xyz_equator]
  have hd : dotV ⟨Real.cos r0, Real.sin r0, 0⟩ ⟨Real.cos r1, Real.sin r1, 0⟩ =
      Real.cos (r1 - r0) := by
    unfold dotV
    rw [Real.cos_sub]
    ring
  rw [hd, Real.arccos_cos h0 h1]

/-- Explicit evaluation of `spherical_interpolation` along the equator: for
two equatorial anchors with `0 < r1 - r0 < π` the result is the equatorial
point at the linearly interpolated right ascension. -/
theorem interp_equator (r0 r1 t0 t1 t2 : ℝ) (hlt : 0 < r1 - r0) (hpi : r1 - r0 < Real.pi) :
    sc2xyz (spherical_interpolation ⟨r0, 0⟩ ⟨r1, 0⟩ t0 t1 t2) =
      ⟨Real.cos (r0 + (r1 - r0) * ((t2 - t0) / (t1 - t0))),
        Real.sin (r0 + (r1 - r0) * ((t2 - t0) / (t1 - t0))), 0⟩ := by
  have hsin : 0 < Real.sin (r1 - r0) := Real.sin_pos_of_pos_of_lt_pi hlt hpi
  simp only [spherical_interpolation]
  rw [separation_equator r0 r1 hlt.le hpi.le, sc2xyz_equator, sc2xyz_equator]
  have hcross : crossV ⟨Real.cos r0, Real.sin r0, 0⟩ ⟨Real.cos r1, Real.sin r1, 0⟩ =
      ⟨0, 0, Real.sin (r1 - r0)⟩ := by
    unfold crossV
    rw [Real.sin_sub]
    ext <;> ring
  rw [hcross]
  have hd : dotV ⟨0, 0, Real.sin (r1 - r0)⟩ ⟨0, 0, Real.sin (r1 - r0)⟩ =
      Real.sin (r1 - r0) ^ 2 := by
    unfold dotV
    ring
  rw [hd, Real.sqrt_sq hsin.le]
  have hn : (1 / Real.sin (r1 - r0)) • (⟨0, 0, Real.sin (r1 - r0)⟩ : Vec3) =
      (⟨0, 0, 1⟩ : Vec3) := by
    rw [Vec3.smul_def]
    ext
    · show 1 / Real.sin (r1 - r0) * 0 = 0
      ring
    · show 1 / Real.sin (r1 - r0) * 0 = 0
      ring
    · show 1 / Real.sin (r1 - r0) * Real.sin (r1 - r0) = 1
      field_simp
  rw [hn]
  have hrot : vector_rotate ⟨Real.cos r0, Real.sin r0, 0⟩ ⟨0, 0, 1⟩
      ((r1 - r0) * ((t2 - t0) / (t1 - t0))) =
      ⟨Real.cos (r0 + (r1 - r0) * ((t2 - t0) / (t1 - t0))),
        Real.sin (r0 + (r1 - r0) * ((t2 - t0) / (t1 - t0))), 0⟩ := by
    simp only [vector_rotate, Real.cos_neg, Real.sin_neg, dotV, crossV, Vec3.smul_def,
      Vec3.add_def]
    rw [Real.cos_add, Real.sin_add]
    ext <;> ring
  rw [hrot]
  apply sc2xyz_xyz2sc
  unfold dotV
  linear_combination Real.sin_sq_add_cos_sq (r0 + (r1 - r0) * ((t2 - t0) / (t1 - t0)))

/-- Times of the concrete three-point ephemeris used against C1. -/
def exC1jd : Fin 3 → ℝ := fun t =>
  match t with
  | 0 => 0
  | 1 => 1
  | 2 => 2

/-- Positions of the concrete three-point ephemeris used against C1: three
equatorial points at RA `-0.3`, `0.1`, `0.5` radians. -/
def exC1eph : Fin 3 → SkyCoord := fun t =>
  match t with
  | 0 => ⟨-0.3, 0⟩
  | 1 => ⟨0.1, 0⟩
  | 2 => ⟨0.5, 0⟩

theorem exC1_interp_a :
    sc2xyz (spherical_interpolation (exC1eph 0) (exC1eph 1) (exC1jd 0) (exC1jd 1)
      (exC1jd 1 - 1 / 2)) = ⟨Real.cos (-0.1), Real.sin (-0.1), 0⟩ := by
  show sc2xyz (spherical_interpolation ⟨-0.3, 0⟩ ⟨0.1, 0⟩ 0 1 ((1 : ℝ) - 1 / 2)) = _
  rw [interp_equator (-0.3) 0.1 0 1 ((1 : ℝ) - 1 / 2) (by norm_num)
    (by have := Real.pi_gt_three; linarith)]
  have hval : (-0.3 : ℝ) + (0.1 - -0.3) * ((1 - 1 / 2 - 0) / (1 - 0)) = -0.1 := by norm_num
  rw [hval]

theorem exC1_interp_c :
    sc2xyz (spherical_interpolation (exC1eph 1) (exC1eph 2) (exC1jd 1) (exC1jd 2)
      (exC1jd 1 + 1 / 2)) = ⟨Real.cos 0.3, Real.sin 0.3, 0⟩ := by
  show sc2xyz (spherical_interpolation ⟨0.1, 0⟩ ⟨0.5, 0⟩ 1 2 ((1 : ℝ) + 1 / 2)) = _
  rw [interp_equator 0.1 0.5 1 2 ((1 : ℝ) + 1 / 2) (by norm_num)
    (by have := Real.pi_gt_three; linarith)]
  have hval : (0.1 : ℝ) + (0.5 - 0.1) * ((1 + 1 / 2 - 1) / (2 - 1)) = 0.3 := by norm_num
  rw [hval]

theorem exC1_box_xmax : (eph_to_limits exC1jd exC1eph (1 / 2)).xmax = Real.cos 0.1 := by
  simp only [eph_to_limits]
  rw [exC1_interp_a, exC1_interp_c]
  show max (Real.cos (-0.1)) (max (sc2xyz ⟨0.1, 0⟩).x (Real.cos 0.3)) = Real.cos 0.1
  rw [sc2xyz_equator]
  show max (Real.cos (-0.1)) (max (Real.cos 0.1) (Real.cos 0.3)) = Real.cos 0.1
  have h31 : Real.cos 0.3 < Real.cos 0.1 := by
    apply Real.strictAntiOn_cos
    · exact ⟨by norm_num, by have h3 := Real.pi_gt_three; linarith⟩
    · exact ⟨by norm_num, by have h3 := Real.pi_gt_three; linarith⟩
    · norm_num
  rw [Real.cos_neg, max_eq_left h31.le, max_self]

theorem exC1_trajectory :
    sc2xyz (trajectory exC1jd exC1eph (3 / 4)) = ⟨1, 0, 0⟩ := by
  unfold trajectory
  rw [if_pos (by show (3 / 4 : ℝ) ≤ exC1jd 1; show (3 / 4 : ℝ) ≤ 1; norm_num)]
  show sc2xyz (spherical_interpolation ⟨-0.3, 0⟩ ⟨0.1, 0⟩ 0 1 (3 / 4)) = _
  rw [interp_equator (-0.3) 0.1 0 1 (3 / 4) (by norm_num)
    (by have := Real.pi_gt_three; linarith)]
  have hval : (-0.3 : ℝ) + (0.1 - -0.3) * ((3 / 4 - 0) / (1 - 0)) = 0 := by norm_num
  rw [hval]
  ext <;> simp

/-- C1 counterexample: for the equatorial ephemeris at RA `-0.3, 0.1, 0.5`
(times `0, 1, 2`, half step `1/2`), the time `3/4` lies inside the box's
`[t_lo, t_hi] = [1/2, 3/2]`, but the great-circle interpolated position at
`3/4` has Cartesian `x = 1`, strictly above the box's `max(x) = cos 0.1`:
the box is not conservative. -/
theorem eph_to_limits_not_conservative :
    (eph_to_limits exC1jd exC1eph (1 / 2)).jda ≤ 3 / 4 ∧
    (3 / 4 : ℝ) ≤ (eph_to_limits exC1jd exC1eph (1 / 2)).jdc ∧
    (eph_to_limits exC1jd exC1eph (1 / 2)).xmax <
      (sc2xyz (trajectory exC1jd exC1eph (3 / 4))).x := by
  refine ⟨?_, ?_, ?_⟩
  · show exC1jd 1 - 1 / 2 ≤ 3 / 4
    show (1 : ℝ) - 1 / 2 ≤ 3 / 4
    norm_num
  · show (3 / 4 : ℝ) ≤ exC1jd 1 + 1 / 2
    show (3 / 4 : ℝ) ≤ 1 + 1 / 2
    norm_num
  · rw [exC1_box_xmax, exC1_trajectory]
    show Real.cos 0.1 < 1
    calc Real.cos 0.1 < Real.cos 0 := by
          apply Real.strictAntiOn_cos
          · exact ⟨by norm_num, by have h3 := Real.pi_gt_three; linarith⟩
          · exact ⟨by norm_num, by have h3 := Real.pi_gt_three; linarith⟩
          · norm_num
      _ = 1 := Real.cos_zero

/-- C1 (amended): the box derived by `eph_to_limits` contains the
trajectory's Cartesian position at the three node times `t_lo`, `jd[1]` and
`t_hi` (it is the per-axis hull of exactly those three interpolated
positions); positions at intermediate times may exceed the bounds, so the
box is not conservative over all of `[t_lo, t_hi]`. -/
theorem eph_to_limits_contains_nodes (jd : Fin 3 → ℝ) (eph : Fin 3 → SkyCoord) (hs : ℝ)
    (hhs : 0 < hs) (ht01 : jd 0 ≠ jd 1) (hab : sc2xyz (eph 0) ≠ sc2xyz (eph 1)) :
    inBox (eph_to_limits jd eph hs)
      (sc2xyz (trajectory jd eph ((eph_to_limits jd eph hs).jda))) ∧
    inBox (eph_to_limits jd eph hs) (sc2xyz (trajectory jd eph (jd 1))) ∧
    inBox (eph_to_limits jd eph hs)
      (sc2xyz (trajectory jd eph ((eph_to_limits jd eph hs).jdc))) := by
  have hja : (eph_to_limits jd eph hs).jda = jd 1 - hs := rfl
  have hjc : (eph_to_limits jd eph hs).jdc = jd 1 + hs := rfl
  refine ⟨?_, ?_, ?_⟩
  · rw [hja]
    unfold trajectory
    rw [if_pos (by linarith [hhs])]
    simp only [eph_to_limits, inBox]
    refine ⟨min_le_left _ _, le_max_left _ _, min_le_left _ _, le_max_left _ _,
      min_le_left _ _, le_max_left _ _⟩
  · unfold trajectory
    rw [if_pos le_rfl]
    rw [interp_t1_eq (eph 0) (eph 1) (jd 0) (jd 1) ht01 hab]
    simp only [eph_to_limits, inBox]
    exact ⟨le_trans (min_le_right _ _) (min_le_left _ _),
      le_trans (le_max_left _ _) (le_max_right _ _),
      le_trans (min_le_right _ _) (min_le_left _ _),
      le_trans (le_max_left _ _) (le_max_right _ _),
      le_trans (min_le_right _ _) (min_le_left _ _),
      le_trans (le_max_left _ _) (le_max_right _ _)⟩
  · rw [hjc]
    unfold trajectory
    rw [if_neg (by intro h; linarith [hhs])]
    simp only [eph_to_limits, inBox]
    exact ⟨le_trans (min_le_right _ _) (min_le_right _ _),
      le_trans (le_max_right _ _) (le_max_right _ _),
      le_trans (min_le_right _ _) (min_le_right _ _),
      le_trans (le_max_right _ _) (le_max_right _ _),
      le_trans (min_le_right _ _) (min_le_right _ _),
      le_trans (le_max_right _ _) (le_max_right _ _)⟩

/-- Witness for the amended C1 at the concrete equatorial ephemeris. -/
theorem eph_to_limits_contains_nodes_witness :
    ((0 : ℝ) < 1 / 2 ∧ exC1jd 0 ≠ exC1jd 1 ∧ sc2xyz (exC1eph 0) ≠ sc2xyz (exC1eph 1)) ∧
    (inBox (eph_to_limits exC1jd exC1eph (1 / 2))
        (sc2xyz (trajectory exC1jd exC1eph ((eph_to_limits exC1jd exC1eph (1 / 2)).jda))) ∧
      inBox (eph_to_limits exC1jd exC1eph (1 / 2))
        (sc2xyz (trajectory exC1jd exC1eph (exC1jd 1))) ∧
      inBox (eph_to_limits exC1jd exC1eph (1 / 2))
        (sc2xyz (trajectory exC1jd exC1eph ((eph_to_limits exC1jd exC1eph (1 / 2)).jdc)))) := by
  have hhs : (0 : ℝ) < 1 / 2 := by norm_num
  have ht01 : exC1jd 0 ≠ exC1jd 1 := by
    show (0 : ℝ) ≠ 1
    norm_num
  have hab : sc2xyz (exC1eph 0) ≠ sc2xyz (exC1eph 1) := by
    show sc2xyz ⟨-0.3, 0⟩ ≠ sc2xyz ⟨0.1, 0⟩
    rw [sc2xyz_equator, sc2xyz_equator]
    intro h
    have hy := congrArg Vec3.y h
    have hs3 : 0 < Real.sin 0.3 :=
      Real.sin_pos_of_pos_of_lt_pi (by norm_num) (by have := Real.pi_gt_three; linarith)
    have hs1 : 0 < Real.sin 0.1 :=
      Real.sin_pos_of_pos_of_lt_pi (by norm_num) (by have := Real.pi_gt_three; linarith)
    have : Real.sin (-0.3) = Real.sin 0.1 := hy
    rw [Real.sin_neg] at this
    linarith
  exact ⟨⟨hhs, ht01, hab⟩, eph_to_limits_contains_nodes exC1jd exC1eph (1 / 2) hhs ht01 hab⟩

end

/-! ### `util.assemble_sql` -/

/-- Embedding of `util.assemble_sql` over an abstract parameter type: each
constraint is a SQL expression together with an optional substitution
parameter.  Python string concatenation and the in-place `parameters.extend`
become pure values (the returned list is the input list extended). -/
def assemble_sql {α : Type} (cmd : String) (parameters : List α)
    (constraints : List (String × Option α)) : String × List α :=
  if constraints.length > 0 then
    (cmd ++ " WHERE " ++ String.intercalate " AND " (constraints.map Prod.fst),
      parameters ++ constraints.filterMap Prod.snd)
  else
    (cmd, parameters)

/-- C10: with no constraints `assemble_sql` returns the command and the
parameter list unchanged; with constraints it appends a single WHERE clause
joining the constraint expressions with AND in order, and the returned
parameter list is the input list extended, in order, with exactly the
constraint parameters that are present. -/
theorem assemble_sql_spec {α : Type} (cmd : String) (parameters : List α)
    (constraints : List (String × Option α)) :
    (constraints = [] → assemble_sql cmd parameters constraints = (cmd, parameters)) ∧
    (constraints ≠ [] →
      (assemble_sql cmd parameters constraints).1 =
        cmd ++ " WHERE " ++ String.intercalate " AND " (constraints.map Prod.fst) ∧
      (assemble_sql cmd parameters constraints).2 =
        parameters ++ constraints.filterMap Prod.snd) := by
  constructor
  · intro h
    subst h
    rfl
  · intro h
    have hlen : constraints.length > 0 := List.length_pos.mpr h
    unfold assemble_sql
    rw [if_pos hlen]
    exact ⟨rfl, rfl⟩

/-- Witness for C10, mirroring `test_assemble_sql`. -/
theorem assemble_sql_spec_witness :
    (assemble_sql "SELECT * FROM obs" ([] : List ℤ) [] = ("SELECT * FROM obs", [])) ∧
    ((assemble_sql "SELECT * FROM obs" ([] : List ℤ)
        [("v > ?", some 1), ("v < 2", none)]).1 =
      "SELECT * FROM obs" ++ " WHERE " ++
        String.intercalate " AND " ["v > ?", "v < 2"] ∧
      (assemble_sql "SELECT * FROM obs" ([] : List ℤ)
        [("v > ?", some 1), ("v < 2", none)]).2 = [1]) := by
  refine ⟨(assemble_sql_spec "SELECT * FROM obs" [] []).1 rfl, ?_⟩
  have h := (assemble_sql_spec "SELECT * FROM obs" ([] : List ℤ)
    [("v > ?", some 1), ("v < 2", none)]).2 (by decide)
  exact ⟨h.1, h.2⟩

/-! ### The SQLite schema (`src/sbsearch/schema.py`)

The schema script is embedded at two levels.  `Schema` models structure
existence for the `CREATE ... IF NOT EXISTS` script (each table is `none`
when missing, `some rows` when present; triggers are flags).  `DBState`
models the row contents of an intact database, with the DDL triggers'
`DELETE` statements applied exactly as written.  SQLite fires the delete
triggers of a table when rows are deleted from inside another trigger body
(this is how `obj → eph → eph_tree` chains), and `BEFORE DELETE` triggers
see the doomed rows, so a cascade deletes dependents of exactly the rows
removed. -/

/-- A row of `obj`. -/
structure ObjRow where
  objid : ℤ
  desg : String
deriving DecidableEq

/-- A row of `eph`. -/
structure EphRow where
  ephid : ℤ
  objid : ℤ
  jd : ℚ
  rh : ℚ
  delta : ℚ
  ra : ℚ
  dec : ℚ
  dra : ℚ
  ddec : ℚ
  vmag : ℚ
  retrieved : String
deriving DecidableEq

/-- A row of the `eph_tree` R-tree. -/
structure EphTreeRow where
  ephid : ℤ
  mjd0 : ℚ
  mjd1 : ℚ
  x0 : ℚ
  x1 : ℚ
  y0 : ℚ
  y1 : ℚ
  z0 : ℚ
  z1 : ℚ
deriving DecidableEq

/-- A row of the observation table; its column list beyond `obsid` is
survey-configurable (`obs_columns`), modelled as an opaque payload. -/
structure ObsRow where
  obsid : ℤ
  payload : List String
deriving DecidableEq

/-- A row of the `{obs_table}_tree` R-tree. -/
structure ObsTreeRow where
  obsid : ℤ
  mjd0 : ℚ
  mjd1 : ℚ
  x0 : ℚ
  x1 : ℚ
  y0 : ℚ
  y1 : ℚ
  z0 : ℚ
  z1 : ℚ
deriving DecidableEq

/-- A row of `{obs_table}_found`. -/
structure FoundRow where
  foundid : ℤ
  objid : ℤ
  obsid : ℤ
  obsjd : String
  ra : ℚ
  dec : ℚ
  dra : ℚ
  ddec : ℚ
  ra3sig : ℚ
  dec3sig : ℚ
  vmag : ℚ
  rh : ℚ
  rdot : ℚ
  delta : ℚ
  phase : ℚ
  selong : ℚ
  sangle : ℚ
  vangle : ℚ
  trueanomaly : ℚ
  tmtp : ℚ
deriving DecidableEq

/-- Structure-existence state of the database: each of the six structures is
`none` when missing, and the five triggers are existence flags. -/
structure Schema where
  obj : Option (List ObjRow)
  eph : Option (List EphRow)
  eph_tree : Option (List EphTreeRow)
  obs : Option (List ObsRow)
  obs_tree : Option (List ObsTreeRow)
  found : Option (List FoundRow)
  trig_delete_eph_from_tree : Bool
  trig_delete_object_from_eph : Bool
  trig_delete_obs_from_tree : Bool
  trig_delete_obs_from_found : Bool
  trig_delete_obj_from_found : Bool
deriving DecidableEq

/-- Embedding of `schema.create`: the executed script consists solely of
`CREATE TABLE IF NOT EXISTS`, `CREATE VIRTUAL TABLE IF NOT EXISTS` and
`CREATE TRIGGER IF NOT EXISTS` statements, so each missing structure is
created empty and each existing structure (and its rows) is untouched. -/
def create (db : Schema) : Schema where
  obj := some (db.obj.getD [])
  eph := some (db.eph.getD [])
  eph_tree := some (db.eph_tree.getD [])
  obs := some (db.obs.getD [])
  obs_tree := some (db.obs_tree.getD [])
  found := some (db.found.getD [])
  trig_delete_eph_from_tree := true
  trig_delete_object_from_eph := true
  trig_delete_obs_from_tree := true
  trig_delete_obs_from_found := true
  trig_delete_obj_from_found := true

/-- C9: `schema.create` is idempotent: on a database where all structures
exist it is a no-op; in general it creates exactly the missing structures,
leaves the rows of every existing table unchanged, and running it twice is
the same as running it once. -/
theorem create_idempotent (db : Schema) :
    (db.obj.isSome = true → db.eph.isSome = true → db.eph_tree.isSome = true →
      db.obs.isSome = true → db.obs_tree.isSome = true → db.found.isSome = true →
      db.trig_delete_eph_from_tree = true → db.trig_delete_object_from_eph = true →
      db.trig_delete_obs_from_tree = true → db.trig_delete_obs_from_found = true →
      db.trig_delete_obj_from_found = true → create db = db) ∧
    create (create db) = create db ∧
    ((create db).obj.isSome = true ∧ (create db).eph.isSome = true ∧
      (create db).eph_tree.isSome = true ∧ (create db).obs.isSome = true ∧
      (create db).obs_tree.isSome = true ∧ (create db).found.isSome = true ∧
      (create db).trig_delete_eph_from_tree = true ∧
      (create db).trig_delete_object_from_eph = true ∧
      (create db).trig_delete_obs_from_tree = true ∧
      (create db).trig_delete_obs_from_found = true ∧
      (create db).trig_delete_obj_from_found = true) ∧
    ((∀ r, db.obj = some r → (create db).obj = some r) ∧
      (∀ r, db.eph = some r → (create db).eph = some r) ∧
      (∀ r, db.eph_tree = some r → (create db).eph_tree = some r) ∧
      (∀ r, db.obs = some r → (create db).obs = some r) ∧
      (∀ r, db.obs_tree = some r → (create db).obs_tree = some r) ∧
      (∀ r, db.found = some r → (create db).found = some r)) := by
  refine ⟨?_, rfl, ⟨rfl, rfl, rfl, rfl, rfl, rfl, rfl, rfl, rfl, rfl, rfl⟩, ?_⟩
  · intro h1 h2 h3 h4 h5 h6 t1 t2 t3 t4 t5
    obtain ⟨r1, e1⟩ := Option.isSome_iff_exists.mp h1
    obtain ⟨r2, e2⟩ := Option.isSome_iff_exists.mp h2
    obtain ⟨r3, e3⟩ := Option.isSome_iff_exists.mp h3
    obtain ⟨r4, e4⟩ := Option.isSome_iff_exists.mp h4
    obtain ⟨r5, e5⟩ := Option.isSome_iff_exists.mp h5
    obtain ⟨r6, e6⟩ := Option.isSome_iff_exists.mp h6
    unfold create
    cases db
    simp only at e1 e2 e3 e4 e5 e6 t1 t2 t3 t4 t5
    subst e1 e2 e3 e4 e5 e6 t1 t2 t3 t4 t5
    rfl
  · exact ⟨fun r h => by simp [create, h], fun r h => by simp [create, h],
      fun r h => by simp [create, h], fun r h => by simp [create, h],
      fun r h => by simp [create, h], fun r h => by simp [create, h]⟩

/-- A complete schema state used as the C9 witness input. -/
def dbFull : Schema :=
  ⟨some [⟨1, "2P"⟩], some [], some [], some [], some [], some [],
    true, true, true, true, true⟩

/-- A schema state missing the `eph` table (as in `test_verify_tables`). -/
def dbPartial : Schema :=
  ⟨some [⟨1, "2P"⟩], none, some [], some [], some [], some [],
    true, false, true, true, true⟩

/-- Witness for C9: on a complete database `create` is a no-op; on a
database with `eph` dropped it recreates `eph` and keeps the `obj` rows. -/
theorem create_idempotent_witness :
    create dbFull = dbFull ∧
    ((create dbPartial).obj = some [⟨1, "2P"⟩] ∧ (create dbPartial).eph.isSome = true) := by
  refine ⟨(create_idempotent dbFull).1 rfl rfl rfl rfl rfl rfl rfl rfl rfl rfl rfl, ?_, ?_⟩
  · exact (create_idempotent dbPartial).2.2.2.1 [⟨1, "2P"⟩] rfl
  · exact (create_idempotent dbPartial).2.2.1.2.1

/-- Row contents of an intact database. -/
structure DBState where
  obj : List ObjRow
  eph : List EphRow
  eph_tree : List EphTreeRow
  obs : List ObsRow
  obs_tree : List ObsTreeRow
  found : List FoundRow
deriving DecidableEq

/-- Delete the `eph` rows satisfying `p`.  The `delete_eph_from_tree`
trigger (`BEFORE DELETE ON eph`) first removes each doomed row's `eph_tree`
entries (`DELETE FROM eph_tree WHERE ephid=old.ephid`). -/
def deleteEphWhere (db : DBState) (p : EphRow → Bool) : DBState :=
  { db with
    eph_tree := db.eph_tree.filter fun t => !(db.eph.any fun e => p e && e.ephid == t.ephid)
    eph := db.eph.filter fun e => !(p e) }

/-- Delete the observation rows satisfying `p`.  All three observation-table
triggers fire `BEFORE DELETE ON {obs_table}`: `delete_obs_from_{t}_tree`
removes the doomed rows' `{obs_table}_tree` entries, and both
`delete_obs_from_{t}_found` and (as actually written in the source)
`delete_obj_from_{t}_found` remove the `{obs_table}_found` rows matching
`obsid=old.obsid`. -/
def deleteObsWhere (db : DBState) (p : ObsRow → Bool) : DBState :=
  { db with
    obs_tree := db.obs_tree.filter fun t => !(db.obs.any fun o => p o && o.obsid == t.obsid)
    found := db.found.filter fun f => !(db.obs.any fun o => p o && o.obsid == f.obsid)
    obs := db.obs.filter fun o => !(p o) }

/-- Delete the `obj` rows satisfying `p`.  The only trigger on `obj` is
`delete_object_from_eph` (`DELETE FROM eph WHERE objid=old.objid`), whose
nested delete in turn fires `delete_eph_from_tree`.  No trigger on `obj`
touches `{obs_table}_found`. -/
def deleteObjWhere (db : DBState) (p : ObjRow → Bool) : DBState :=
  let db1 := deleteEphWhere db fun e => db.obj.any fun o => p o && o.objid == e.objid
  { db1 with obj := db1.obj.filter fun o => !(p o) }

/-- Delete a single object by id. -/
def deleteObject (db : DBState) (oid : ℤ) : DBState :=
  deleteObjWhere db fun o => o.objid == oid

/-- Delete a single observation by id. -/
def deleteObservation (db : DBState) (oid : ℤ) : DBState :=
  deleteObsWhere db fun o => o.obsid == oid

/-- A database with one object, one observation, and one found record
linking them, used as C4's failing input and C5's witness input. -/
def exDB : DBState where
  obj := [⟨1, "2P"⟩]
  eph := [⟨7, 1, 2458119, 1, 1, 10, 5, 0, 0, 12, "now"⟩]
  eph_tree := [⟨7, 2458118, 2458120, 0, 1, 0, 1, 0, 1⟩]
  obs := [⟨5, ["x"]⟩]
  obs_tree := [⟨5, 2458119, 2458120, 0, 1, 0, 1, 0, 1⟩]
  found := [⟨10, 1, 5, "2458119.5", 10, 5, 0, 0, 0, 0, 12, 1, 0, 1, 0, 0, 0, 0, 0, 0⟩]

/-- C4 evidence: in the schema as written, deleting object 1 leaves its
found record orphaned (the `delete_obj_from_{t}_found` trigger is declared
`BEFORE DELETE ON {obs_table}` with `WHERE obsid=old.obsid`, not on `obj`),
while deleting observation 5 does remove the found record. -/
theorem found_cascade_object_delete_fails :
    (deleteObject exDB 1).obj = [] ∧
    (deleteObject exDB 1).found = exDB.found ∧
    ((deleteObject exDB 1).found.filter fun f => f.objid == 1) ≠ [] ∧
    (deleteObservation exDB 5).found = [] := by
  refine ⟨rfl, rfl, ?_, rfl⟩
  decide

/-- C5: deleting an object removes every `eph` row with its `objid` and
every `eph_tree` row indexing one of those `eph` rows: a subsequent query
for the deleted object's ephemeris points or index entries returns empty. -/
theorem delete_object_cascades_eph (db : DBState) (oid : ℤ)
    (hd : ∃ o ∈ db.obj, o.objid = oid) :
    ((deleteObject db oid).eph.filter fun e => e.objid == oid) = [] ∧
    ((deleteObject db oid).eph_tree.filter fun t =>
      db.eph.any fun e => e.objid == oid && e.ephid == t.ephid) = [] := by
  obtain ⟨ow, howm, howid⟩ := hd
  have hp : ∀ e : EphRow, e.objid = oid →
      (db.obj.any fun o => (o.objid == oid) && o.objid == e.objid) = true := by
    intro e he
    rw [List.any_eq_true]
    exact ⟨ow, howm, by rw [howid, he]; simp⟩
  constructor
  · rw [List.filter_eq_nil_iff]
    intro e hmem
    unfold deleteObject deleteObjWhere deleteEphWhere at hmem
    simp only [List.mem_filter, Bool.not_eq_true'] at hmem
    intro habs
    have he : e.objid = oid := by simpa using habs
    have := hp e he
    rw [this] at hmem
    simp at hmem
  · rw [List.filter_eq_nil_iff]
    intro t hmem
    unfold deleteObject deleteObjWhere deleteEphWhere at hmem
    simp only [List.mem_filter, Bool.not_eq_true'] at hmem
    intro habs
    rw [List.any_eq_true] at habs
    obtain ⟨e, hem, hee⟩ := habs
    simp only [Bool.and_eq_true, beq_iff_eq] at hee
    have hany : (db.eph.any fun e2 =>
        (db.obj.any fun o => (o.objid == oid) && o.objid == e2.objid) &&
          e2.ephid == t.ephid) = true := by
      rw [List.any_eq_true]
      refine ⟨e, hem, ?_⟩
      rw [hp e hee.1]
      simp [hee.2]
    rw [hany] at hmem
    simp at hmem

/-- Witness for C5 at the concrete database `exDB`. -/
theorem delete_object_cascades_eph_witness :
    (∃ o ∈ exDB.obj, o.objid = 1) ∧
    (((deleteObject exDB 1).eph.filter fun e => e.objid == 1) = [] ∧
      ((deleteObject exDB 1).eph_tree.filter fun t =>
        exDB.eph.any fun e => e.objid == 1 && e.ephid == t.ephid) = []) := by
  have hd : ∃ o ∈ exDB.obj, o.objid = 1 := ⟨⟨1, "2P"⟩, by decide, rfl⟩
  exact ⟨hd, delete_object_cascades_eph exDB 1 hd⟩

/-! ### `util.interior_test`

The astropy pieces used by `interior_test` are embedded as follows:
`position_angle` by its defining arctangent formula wrapped into `[0, 2π)`
(astropy wraps position angles at 360°), `Angle.wrap_at(w)` as the unique
representative in `[w - 2π, w)`, and `np.argsort` on the three separations
as a stable ascending sort (ties keep original order; numpy leaves tie
order unspecified, and none of the theorems below depend on ties). -/

noncomputable section

open Real

/-- Wrap an angle into `[0, 2π)` (astropy `wrap_at(360 deg)`, applied by
`position_angle` to its arctangent). -/
def wrap360 (th : ℝ) : ℝ := th - 2 * Real.pi * ⌊th / (2 * Real.pi)⌋

/-- Embedding of astropy `Angle.wrap_at`: the representative of `th` modulo
`2π` lying in `[w - 2π, w)`. -/
def wrapAt (w th : ℝ) : ℝ := th - 2 * Real.pi * (⌊(th - w) / (2 * Real.pi)⌋ + 1)

/-- Embedding of astropy `position_angle` (East of North, in `[0, 2π)`). -/
def position_angle (c1 c2 : SkyCoord) : ℝ :=
  let dlon := c2.ra - c1.ra
  let colat := Real.cos c2.dec
  let xx := Real.sin c2.dec * Real.cos c1.dec - colat * Real.sin c1.dec * Real.cos dlon
  let yy := Real.sin dlon * colat
  wrap360 (atan2 yy xx)

/-- The angular core of one half-test of `util.interior_test`: wrap the two
corner position angles `x`, `y` at their minimum, sort, wrap the point's
position angle the same way, and fail when it falls outside the sorted
pair (the code returns `False` when `pa_test < pa[0] or pa_test > pa[1]`). -/
def paInterval (x y t : ℝ) : Prop :=
  ¬(wrapAt (min x y) t < min (wrapAt (min x y) x) (wrapAt (min x y) y) ∨
    max (wrapAt (min x y) x) (wrapAt (min x y) y) < wrapAt (min x y) t)

/-- One half-test of `util.interior_test` from `center`, with edge corners
`ca`, `cb`. -/
def halfTest (center ca cb point : SkyCoord) : Prop :=
  paInterval (position_angle center ca) (position_angle center cb)
    (position_angle center point)

open scoped Classical in
/-- Stable ascending argsort of three keys: the positions of the smallest,
middle and largest key (embedding `np.argsort` on the three separations;
ties keep original order). -/
def argsort3 (a b c : ℝ) : Fin 3 × Fin 3 × Fin 3 :=
  if a ≤ b then
    if c < a then (2, 0, 1) else if c < b then (0, 2, 1) else (0, 1, 2)
  else
    if c < b then (2, 1, 0) else if c < a then (1, 2, 0) else (1, 0, 2)

/-- Embedding of `util.interior_test`: sort corners 1..3 by separation from
corner 0 into `(i, j, k)`; the half-tests run from corner 0 and from the
farthest corner `k`, both against corners `i` and `j`. -/
def interior_test (point : SkyCoord) (corners : Fin 4 → SkyCoord) : Prop :=
  let ijk := argsort3 (separation (corners 0) (corners 1))
    (separation (corners 0) (corners 2)) (separation (corners 0) (corners 3))
  halfTest (corners 0) (corners ijk.1.succ) (corners ijk.2.1.succ) point ∧
  halfTest (corners ijk.2.2.succ) (corners ijk.1.succ) (corners ijk.2.1.succ) point

/-- Modelled from the spec: the point's wrapped position angle "falls
between" the two wrapped corner position angles, with the branch cut at the
minimum of the two corner angles. -/
def paBetween (x y t : ℝ) : Prop :=
  min (wrapAt (min x y) x) (wrapAt (min x y) y) ≤ wrapAt (min x y) t ∧
    wrapAt (min x y) t ≤ max (wrapAt (min x y) x) (wrapAt (min x y) y)

/-- Modelled from the spec: the half-test from one diagonal endpoint using
the two other corners. -/
def specHalf (center ca cb point : SkyCoord) : Prop :=
  paBetween (position_angle center ca) (position_angle center cb)
    (position_angle center point)

/-- Modelled from the spec: both half-tests from the two diagonal endpoints
`p`, `q` against the other two corners `u`, `v`. -/
def specBoth (point : SkyCoord) (corners : Fin 4 → SkyCoord) (p q u v : Fin 4) : Prop :=
  specHalf (corners p) (corners u) (corners v) point ∧
  specHalf (corners q) (corners u) (corners v) point

open scoped Classical in
/-- Modelled from the spec: `isInteriorToSphericalQuad` with the diagonal
chosen as the pair of mutually farthest corners under pairwise great-circle
separation (the first such pair in enumeration order when tied). -/
def interiorSpecQuad (point : SkyCoord) (corners : Fin 4 → SkyCoord) : Prop :=
  let d : Fin 4 → Fin 4 → ℝ := fun p q => separation (corners p) (corners q)
  if d 0 1 ≥ d 0 2 ∧ d 0 1 ≥ d 0 3 ∧ d 0 1 ≥ d 1 2 ∧ d 0 1 ≥ d 1 3 ∧ d 0 1 ≥ d 2 3 then
    specBoth point corners 0 1 2 3
  else if d 0 2 ≥ d 0 3 ∧ d 0 2 ≥ d 1 2 ∧ d 0 2 ≥ d 1 3 ∧ d 0 2 ≥ d 2 3 then
    specBoth point corners 0 2 1 3
  else if d 0 3 ≥ d 1 2 ∧ d 0 3 ≥ d 1 3 ∧ d 0 3 ≥ d 2 3 then
    specBoth point corners 0 3 1 2
  else if d 1 2 ≥ d 1 3 ∧ d 1 2 ≥ d 2 3 then
    specBoth point corners 1 2 0 3
  else if d 1 3 ≥ d 2 3 then
    specBoth point corners 1 3 0 2
  else
    specBoth point corners 2 3 0 1

open scoped Classical in
/-- Modelled from the spec, amended: the diagonal is corner 0 paired with
the corner strictly farthest from corner 0 (the `False` default on ties is
excluded by the amended claim's distinctness assumption). -/
def interiorAmendedQuad (point : SkyCoord) (corners : Fin 4 → SkyCoord) : Prop :=
  let s1 := separation (corners 0) (corners 1)
  let s2 := separation (corners 0) (corners 2)
  let s3 := separation (corners 0) (corners 3)
  if s1 > s2 ∧ s1 > s3 then specBoth point corners 0 1 2 3
  else if s2 > s1 ∧ s2 > s3 then specBoth point corners 0 2 1 3
  else if s3 > s1 ∧ s3 > s2 then specBoth point corners 0 3 1 2
  else False

theorem paInterval_iff_paBetween (x y t : ℝ) : paInterval x y t ↔ paBetween x y t := by
  unfold paInterval paBetween
  rw [not_or, not_lt, not_lt]

theorem paBetween_comm (x y t : ℝ) : paBetween x y t ↔ paBetween y x t := by
  unfold paBetween
  rw [min_comm y x,
    min_comm (wrapAt (min x y) y) (wrapAt (min x y) x),
    max_comm (wrapAt (min x y) y) (wrapAt (min x y) x)]

theorem halfTest_iff_specHalf (center ca cb point : SkyCoord) :
    halfTest center ca cb point ↔ specHalf center ca cb point :=
  paInterval_iff_paBetween _ _ _

theorem halfTest_comm (center ca cb point : SkyCoord) :
    halfTest center ca cb point ↔ specHalf center cb ca point :=
  (paInterval_iff_paBetween _ _ _).trans (paBetween_comm _ _ _)

theorem specHalf_comm (center ca cb point : SkyCoord) :
    specHalf center ca cb point ↔ specHalf center cb ca point :=
  paBetween_comm _ _ _

theorem two_pi_pos : (0 : ℝ) < 2 * Real.pi := by positivity

theorem wrap360_eq_self (th : ℝ) (h1 : 0 ≤ th) (h2 : th < 2 * Real.pi) :
    wrap360 th = th := by
  unfold wrap360
  have hfl : ⌊th / (2 * Real.pi)⌋ = 0 := by
    rw [Int.floor_eq_iff]
    constructor
    · push_cast
      positivity
    · push_cast
      have h3 : th / (2 * Real.pi) < 1 := by
        rw [div_lt_one two_pi_pos]
        linarith
      linarith [h3]
  rw [hfl]
  push_cast
  ring

theorem wrap360_eq_add (th : ℝ) (h1 : -(2 * Real.pi) ≤ th) (h2 : th < 0) :
    wrap360 th = th + 2 * Real.pi := by
  unfold wrap360
  have hfl : ⌊th / (2 * Real.pi)⌋ = -1 := by
    rw [Int.floor_eq_iff]
    constructor
    · push_cast
      rw [le_div_iff two_pi_pos]
      linarith
    · push_cast
      norm_num
      exact div_neg_of_neg_of_pos h2 two_pi_pos
  rw [hfl]
  push_cast
  ring

theorem wrapAt_eq_self (w th : ℝ) (h1 : w - 2 * Real.pi ≤ th) (h2 : th < w) :
    wrapAt w th = th := by
  unfold wrapAt
  have hfl : ⌊(th - w) / (2 * Real.pi)⌋ = -1 := by
    rw [Int.floor_eq_iff]
    constructor
    · push_cast
      rw [le_div_iff two_pi_pos]
      linarith
    · push_cast
      norm_num
      exact div_neg_of_neg_of_pos (by linarith) two_pi_pos
  rw [hfl]
  push_cast
  ring

theorem wrapAt_eq_sub (w th : ℝ) (h1 : w ≤ th) (h2 : th < w + 2 * Real.pi) :
    wrapAt w th = th - 2 * Real.pi := by
  unfold wrapAt
  have hfl : ⌊(th - w) / (2 * Real.pi)⌋ = 0 := by
    rw [Int.floor_eq_iff]
    constructor
    · push_cast
      have h0 : (0 : ℝ) ≤ th - w := by linarith
      positivity
    · push_cast
      have h3 : (th - w) / (2 * Real.pi) < 1 := by
        rw [div_lt_one two_pi_pos]
        linarith
      linarith [h3]
  rw [hfl]
  push_cast
  ring

/-- On the equator, the position angle to a point east of the center
(`sin (r1 - r0) > 0`) is `π/2`. -/
theorem position_angle_equator_east (r0 r1 : ℝ) (h : 0 < Real.sin (r1 - r0)) :
    position_angle ⟨r0, 0⟩ ⟨r1, 0⟩ = Real.pi / 2 := by
  have hpi := Real.pi_pos
  simp only [position_angle, Real.sin_zero, Real.cos_zero, zero_mul, mul_zero, one_mul,
    mul_one, zero_sub, sub_zero, neg_zero]
  have harg : atan2 (Real.sin (r1 - r0)) 0 = Real.pi / 2 :=
    Complex.arg_eq_pi_div_two_iff.mpr ⟨rfl, h⟩
  rw [harg]
  exact wrap360_eq_self _ (by linarith) (by linarith)

/-- On the equator, the position angle to a point west of the center
(`sin (r1 - r0) < 0`) is `3π/2`. -/
theorem position_angle_equator_west (r0 r1 : ℝ) (h : Real.sin (r1 - r0) < 0) :
    position_angle ⟨r0, 0⟩ ⟨r1, 0⟩ = 3 * Real.pi / 2 := by
  have hpi := Real.pi_pos
  simp only [position_angle, Real.sin_zero, Real.cos_zero, zero_mul, mul_zero, one_mul,
    mul_one, zero_sub, sub_zero, neg_zero]
  have harg : atan2 (Real.sin (r1 - r0)) 0 = -(Real.pi / 2) :=
    Complex.arg_eq_neg_pi_div_two_iff.mpr ⟨rfl, h⟩
  rw [harg, wrap360_eq_add _ (by linarith) (by linarith)]
  ring

theorem sin_neg_on_pi_two_pi (x : ℝ) (h1 : Real.pi < x) (h2 : x < 2 * Real.pi) :
    Real.sin x < 0 := by
  have h : 0 < Real.sin (x - Real.pi) :=
    Real.sin_pos_of_pos_of_lt_pi (by linarith) (by linarith)
  have hs : Real.sin (x - Real.pi) = -Real.sin x := by
    rw [Real.sin_sub]
    simp
  rw [hs] at h
  linarith

theorem paBetween_west_east_west :
    paBetween (3 * Real.pi / 2) (Real.pi / 2) (3 * Real.pi / 2) := by
  have hpi := Real.pi_pos
  unfold paBetween
  rw [min_eq_right (by linarith : Real.pi / 2 ≤ 3 * Real.pi / 2),
    wrapAt_eq_sub (Real.pi / 2) (3 * Real.pi / 2) (by linarith) (by linarith),
    wrapAt_eq_sub (Real.pi / 2) (Real.pi / 2) (by linarith) (by linarith)]
  constructor
  · apply min_le_of_right_le
    linarith
  · apply le_max_of_le_left
    linarith

theorem paBetween_west_west_west :
    paBetween (3 * Real.pi / 2) (3 * Real.pi / 2) (3 * Real.pi / 2) := by
  have hpi := Real.pi_pos
  unfold paBetween
  rw [min_self (3 * Real.pi / 2),
    wrapAt_eq_sub (3 * Real.pi / 2) (3 * Real.pi / 2) (by linarith) (by linarith),
    min_self, max_self]
  exact ⟨le_refl _, le_refl _⟩

theorem not_paBetween_east_east_west :
    ¬ paBetween (Real.pi / 2) (Real.pi / 2) (3 * Real.pi / 2) := by
  have hpi := Real.pi_pos
  unfold paBetween
  rw [min_self (Real.pi / 2),
    wrapAt_eq_sub (Real.pi / 2) (Real.pi / 2) (by linarith) (by linarith),
    wrapAt_eq_sub (Real.pi / 2) (3 * Real.pi / 2) (by linarith) (by linarith),
    min_self, max_self]
  intro h
  linarith [h.2]

theorem max3_cases {x y z : ℝ} (hxy : x ≠ y) (hxz : x ≠ z) (hyz : y ≠ z) :
    (y < x ∧ z < x) ∨ (x < y ∧ z < y) ∨ (x < z ∧ y < z) := by
  rcases lt_or_gt_of_ne hxy with h1 | h1 <;> rcases lt_or_gt_of_ne hxz with h2 | h2 <;>
    rcases lt_or_gt_of_ne hyz with h3 | h3
  all_goals first
  | exact Or.inl ⟨by linarith, by linarith⟩
  | exact Or.inr (Or.inl ⟨by linarith, by linarith⟩)
  | exact Or.inr (Or.inr ⟨by linarith, by linarith⟩)

/-- When corner 1 is strictly farthest from corner 0, `interior_test` is
the pair of half-tests from corners 0 and 1 against corners 2 and 3. -/
theorem interior_test_max1 (point : SkyCoord) (corners : Fin 4 → SkyCoord)
    (h2 : separation (corners 0) (corners 2) < separation (corners 0) (corners 1))
    (h3 : separation (corners 0) (corners 3) < separation (corners 0) (corners 1)) :
    interior_test point corners ↔
      (specHalf (corners 0) (corners 2) (corners 3) point ∧
        specHalf (corners 1) (corners 2) (corners 3) point) := by
  rcases lt_or_le (separation (corners 0) (corners 3)) (separation (corners 0) (corners 2))
    with h | h
  · have hargs : argsort3 (separation (corners 0) (corners 1))
        (separation (corners 0) (corners 2)) (separation (corners 0) (corners 3)) =
        (2, 1, 0) := by
      unfold argsort3
      rw [if_neg (not_le.mpr h2), if_pos h]
    simp only [interior_test, hargs]
    show halfTest (corners 0) (corners 3) (corners 2) point ∧
        halfTest (corners 1) (corners 3) (corners 2) point ↔ _
    exact and_congr (halfTest_comm _ _ _ _) (halfTest_comm _ _ _ _)
  · have hargs : argsort3 (separation (corners 0) (corners 1))
        (separation (corners 0) (corners 2)) (separation (corners 0) (corners 3)) =
        (1, 2, 0) := by
      unfold argsort3
      rw [if_neg (not_le.mpr h2), if_neg (not_lt.mpr h), if_pos h3]
    simp only [interior_test, hargs]
    show halfTest (corners 0) (corners 2) (corners 3) point ∧
        halfTest (corners 1) (corners 2) (corners 3) point ↔ _
    exact and_congr (halfTest_iff_specHalf _ _ _ _) (halfTest_iff_specHalf _ _ _ _)

/-- When corner 2 is strictly farthest from corner 0, `interior_test` is
the pair of half-tests from corners 0 and 2 against corners 1 and 3. -/
theorem interior_test_max2 (point : SkyCoord) (corners : Fin 4 → SkyCoord)
    (h1 : separation (corners 0) (corners 1) < separation (corners 0) (corners 2))
    (h3 : separation (corners 0) (corners 3) < separation (corners 0) (corners 2)) :
    interior_test point corners ↔
      (specHalf (corners 0) (corners 1) (corners 3) point ∧
        specHalf (corners 2) (corners 1) (corners 3) point) := by
  rcases lt_or_le (separation (corners 0) (corners 3)) (separation (corners 0) (corners 1))
    with h | h
  · have hargs : argsort3 (separation (corners 0) (corners 1))
        (separation (corners 0) (corners 2)) (separation (corners 0) (corners 3)) =
        (2, 0, 1) := by
      unfold argsort3
      rw [if_pos h1.le, if_pos h]
    simp only [interior_test, hargs]
    show halfTest (corners 0) (corners 3) (corners 1) point ∧
        halfTest (corners 2) (corners 3) (corners 1) point ↔ _
    exact and_congr (halfTest_comm _ _ _ _) (halfTest_comm _ _ _ _)
  · have hargs : argsort3 (separation (corners 0) (corners 1))
        (separation (corners 0) (corners 2)) (separation (corners 0) (corners 3)) =
        (0, 2, 1) := by
      unfold argsort3
      rw [if_pos h1.le, if_neg (not_lt.mpr h), if_pos h3]
    simp only [interior_test, hargs]
    show halfTest (corners 0) (corners 1) (corners 3) point ∧
        halfTest (corners 2) (corners 1) (corners 3) point ↔ _
    exact and_congr (halfTest_iff_specHalf _ _ _ _) (halfTest_iff_specHalf _ _ _ _)

/-- When corner 3 is strictly farthest from corner 0, `interior_test` is
the pair of half-tests from corners 0 and 3 against corners 1 and 2. -/
theorem interior_test_max3 (point : SkyCoord) (corners : Fin 4 → SkyCoord)
    (h1 : separation (corners 0) (corners 1) < separation (corners 0) (corners 3))
    (h2 : separation (corners 0) (corners 2) < separation (corners 0) (corners 3)) :
    interior_test point corners ↔
      (specHalf (corners 0) (corners 1) (corners 2) point ∧
        specHalf (corners 3) (corners 1) (corners 2) point) := by
  rcases le_or_lt (separation (corners 0) (corners 1)) (separation (corners 0) (corners 2))
    with h | h
  · have hargs : argsort3 (separation (corners 0) (corners 1))
        (separation (corners 0) (corners 2)) (separation (corners 0) (corners 3)) =
        (0, 1, 2) := by
      unfold argsort3
      rw [if_pos h, if_neg (not_lt.mpr h1.le), if_neg (not_lt.mpr h2.le)]
    simp only [interior_test, hargs]
    show halfTest (corners 0) (corners 1) (corners 2) point ∧
        halfTest (corners 3) (corners 1) (corners 2) point ↔ _
    exact and_congr (halfTest_iff_specHalf _ _ _ _) (halfTest_iff_specHalf _ _ _ _)
  · have hargs : argsort3 (separation (corners 0) (corners 1))
        (separation (corners 0) (corners 2)) (separation (corners 0) (corners 3)) =
        (1, 0, 2) := by
      unfold argsort3
      rw [if_neg (not_le.mpr h), if_neg (not_lt.mpr h2.le), if_neg (not_lt.mpr h1.le)]
    simp only [interior_test, hargs]
    show halfTest (corners 0) (corners 2) (corners 1) point ∧
        halfTest (corners 3) (corners 2) (corners 1) point ↔ _
    exact and_congr (halfTest_comm _ _ _ _) (halfTest_comm _ _ _ _)

/-- C2 (amended): when the three separations from corner 0 are pairwise
distinct, `interior_test` determines its diagonal as corner 0 paired with
the corner farthest from corner 0 (not the globally mutually farthest
pair), and returns True iff the point's wrapped position angle lies between
the two wrapped corner position angles as seen from both diagonal
endpoints, each half-test using the other two corners with the branch cut
at the minimum of the two corner angles. -/
theorem interior_test_iff_amended (point : SkyCoord) (corners : Fin 4 → SkyCoord)
    (h12 : separation (corners 0) (corners 1) ≠ separation (corners 0) (corners 2))
    (h13 : separation (corners 0) (corners 1) ≠ separation (corners 0) (corners 3))
    (h23 : separation (corners 0) (corners 2) ≠ separation (corners 0) (corners 3)) :
    interior_test point corners ↔ interiorAmendedQuad point corners := by
  rcases max3_cases h12 h13 h23 with ⟨ha, hb⟩ | ⟨ha, hb⟩ | ⟨ha, hb⟩
  · rw [interior_test_max1 point corners ha hb]
    simp only [interiorAmendedQuad]
    rw [if_pos ⟨ha, hb⟩]
    exact Iff.rfl
  · rw [interior_test_max2 point corners ha hb]
    simp only [interiorAmendedQuad]
    rw [if_neg (fun hcon => absurd hcon.1 (lt_asymm ha)), if_pos ⟨ha, hb⟩]
    exact Iff.rfl
  · rw [interior_test_max3 point corners ha hb]
    simp only [interiorAmendedQuad]
    rw [if_neg (fun hcon => absurd hcon.2 (lt_asymm ha)),
      if_neg (fun hcon => absurd hcon.2 (lt_asymm hb)), if_pos ⟨ha, hb⟩]
    exact Iff.rfl

/-- C3 (amended): when the three separations from the first corner are
pairwise distinct, `interior_test` gives the same verdict under any
relabeling of the corners that keeps the first corner first.  (Relabelings
that move the first corner can change the verdict, since the diagonal is
chosen from corner 0.) -/
theorem interior_test_relabel (point : SkyCoord) (corners : Fin 4 → SkyCoord)
    (σ : Fin 4 → Fin 4) (hbij : Function.Bijective σ) (h0 : σ 0 = 0)
    (h12 : separation (corners 0) (corners 1) ≠ separation (corners 0) (corners 2))
    (h13 : separation (corners 0) (corners 1) ≠ separation (corners 0) (corners 3))
    (h23 : separation (corners 0) (corners 2) ≠ separation (corners 0) (corners 3)) :
    (interior_test point fun t => corners (σ t)) ↔ interior_test point corners := by
  have hinj := hbij.1
  have hall : ∀ x : Fin 4, x = 0 ∨ x = 1 ∨ x = 2 ∨ x = 3 := by decide
  have hne0 : ∀ t : Fin 4, t ≠ 0 → σ t ≠ 0 := fun t ht h => ht (hinj (h.trans h0.symm))
  have hcol : ∀ t u : Fin 4, t ≠ u → σ t ≠ σ u := fun t u htu h => htu (hinj h)
  rcases hall (σ 1) with h1 | h1 | h1 | h1
  · exact absurd h1 (hne0 1 (by decide))
  · -- σ 1 = 1
    rcases hall (σ 2) with h2 | h2 | h2 | h2
    · exact absurd h2 (hne0 2 (by decide))
    · exact absurd (h2.trans h1.symm) (hcol 2 1 (by decide))
    · -- σ 2 = 2
      rcases hall (σ 3) with h3 | h3 | h3 | h3
      · exact absurd h3 (hne0 3 (by decide))
      · exact absurd (h3.trans h1.symm) (hcol 3 1 (by decide))
      · exact absurd (h3.trans h2.symm) (hcol 3 2 (by decide))
      · -- identity relabeling
        have hfc : (fun t => corners (σ t)) = corners := by
          funext t
          rcases hall t with h | h | h | h <;> subst h <;>
            simp only [h0, h1, h2, h3]
        rw [hfc]
    · -- σ 2 = 3
      rcases hall (σ 3) with h3 | h3 | h3 | h3
      · exact absurd h3 (hne0 3 (by decide))
      · exact absurd (h3.trans h1.symm) (hcol 3 1 (by decide))
      · -- σ = (1, 3, 2)
        rcases max3_cases h12 h13 h23 with ⟨ha, hb⟩ | ⟨ha, hb⟩ | ⟨ha, hb⟩
        · rw [interior_test_max1 point (fun t => corners (σ t))
            (by show separation (corners (σ 0)) (corners (σ 2)) <
                  separation (corners (σ 0)) (corners (σ 1))
                rw [h0, h2, h1]; exact hb)
            (by show separation (corners (σ 0)) (corners (σ 3)) <
                  separation (corners (σ 0)) (corners (σ 1))
                rw [h0, h3, h1]; exact ha),
            interior_test_max1 point corners ha hb]
          simp only [h0, h1, h2, h3]
          exact and_congr (specHalf_comm _ _ _ _) (specHalf_comm _ _ _ _)
        · rw [interior_test_max3 point (fun t => corners (σ t))
            (by show separation (corners (σ 0)) (corners (σ 1)) <
                  separation (corners (σ 0)) (corners (σ 3))
                rw [h0, h1, h3]; exact ha)
            (by show separation (corners (σ 0)) (corners (σ 2)) <
                  separation (corners (σ 0)) (corners (σ 3))
                rw [h0, h2, h3]; exact hb),
            interior_test_max2 point corners ha hb]
          simp only [h0, h1, h2, h3]
        · rw [interior_test_max2 point (fun t => corners (σ t))
            (by show separation (corners (σ 0)) (corners (σ 1)) <
                  separation (corners (σ 0)) (corners (σ 2))
                rw [h0, h1, h2]; exact ha)
            (by show separation (corners (σ 0)) (corners (σ 3)) <
                  separation (corners (σ 0)) (corners (σ 2))
                rw [h0, h3, h2]; exact hb),
            interior_test_max3 point corners ha hb]
          simp only [h0, h1, h2, h3]
      · exact absurd (h3.trans h2.symm) (hcol 3 2 (by decide))
  · -- σ 1 = 2
    rcases hall (σ 2) with h2 | h2 | h2 | h2
    · exact absurd h2 (hne0 2 (by decide))
    · -- σ = (2, 1, 3)
      rcases hall (σ 3) with h3 | h3 | h3 | h3
      · exact absurd h3 (hne0 3 (by decide))
      · exact absurd (h3.trans h2.symm) (hcol 3 2 (by decide))
      · exact absurd (h3.trans h1.symm) (hcol 3 1 (by decide))
      · -- σ = (2, 1, 3)
        rcases max3_cases h12 h13 h23 with ⟨ha, hb⟩ | ⟨ha, hb⟩ | ⟨ha, hb⟩
        · rw [interior_test_max2 point (fun t => corners (σ t))
            (by show separation (corners (σ 0)) (corners (σ 1)) <
                  separation (corners (σ 0)) (corners (σ 2))
                rw [h0, h1, h2]; exact ha)
            (by show separation (corners (σ 0)) (corners (σ 3)) <
                  separation (corners (σ 0)) (corners (σ 2))
                rw [h0, h3, h2]; exact hb),
            interior_test_max1 point corners ha hb]
          simp only [h0, h1, h2, h3]
        · rw [interior_test_max1 point (fun t => corners (σ t))
            (by show separation (corners (σ 0)) (corners (σ 2)) <
                  separation (corners (σ 0)) (corners (σ 1))
                rw [h0, h2, h1]; exact ha)
            (by show separation (corners (σ 0)) (corners (σ 3)) <
                  separation (corners (σ 0)) (corners (σ 1))
                rw [h0, h3, h1]; exact hb),
            interior_test_max2 point corners ha hb]
          simp only [h0, h1, h2, h3]
        · rw [interior_test_max3 point (fun t => corners (σ t))
            (by show separation (corners (σ 0)) (corners (σ 1)) <
                  separation (corners (σ 0)) (corners (σ 3))
                rw [h0, h1, h3]; exact hb)
            (by show separation (corners (σ 0)) (corners (σ 2)) <
                  separation (corners (σ 0)) (corners (σ 3))
                rw [h0, h2, h3]; exact ha),
            interior_test_max3 point corners ha hb]
          simp only [h0, h1, h2, h3]
          exact and_congr (specHalf_comm _ _ _ _) (specHalf_comm _ _ _ _)
    · exact absurd (h2.trans h1.symm) (hcol 2 1 (by decide))
    · -- σ = (2, 3, 1)
      rcases hall (σ 3) with h3 | h3 | h3 | h3
      · exact absurd h3 (hne0 3 (by decide))
      · -- σ = (2, 3, 1)
        rcases max3_cases h12 h13 h23 with ⟨ha, hb⟩ | ⟨ha, hb⟩ | ⟨ha, hb⟩
        · rw [interior_test_max3 point (fun t => corners (σ t))
            (by show separation (corners (σ 0)) (corners (σ 1)) <
                  separation (corners (σ 0)) (corners (σ 3))
                rw [h0, h1, h3]; exact ha)
            (by show separation (corners (σ 0)) (corners (σ 2)) <
                  separation (corners (σ 0)) (corners (σ 3))
                rw [h0, h2, h3]; exact hb),
            interior_test_max1 point corners ha hb]
          simp only [h0, h1, h2, h3]
        · rw [interior_test_max1 point (fun t => corners (σ t))
            (by show separation (corners (σ 0)) (corners (σ 2)) <
                  separation (corners (σ 0)) (corners (σ 1))
                rw [h0, h2, h1]; exact hb)
            (by show separation (corners (σ 0)) (corners (σ 3)) <
                  separation (corners (σ 0)) (corners (σ 1))
                rw [h0, h3, h1]; exact ha),
            interior_test_max2 point corners ha hb]
          simp only [h0, h1, h2, h3]
          exact and_congr (specHalf_comm _ _ _ _) (specHalf_comm _ _ _ _)
        · rw [interior_test_max2 point (fun t => corners (σ t))
            (by show separation (corners (σ 0)) (corners (σ 1)) <
                  separation (corners (σ 0)) (corners (σ 2))
                rw [h0, h1, h2]; exact hb)
            (by show separation (corners (σ 0)) (corners (σ 3)) <
                  separation (corners (σ 0)) (corners (σ 2))
                rw [h0, h3, h2]; exact ha),
            interior_test_max3 point corners ha hb]
          simp only [h0, h1, h2, h3]
          exact and_congr (specHalf_comm _ _ _ _) (specHalf_comm _ _ _ _)
      · exact absurd (h3.trans h1.symm) (hcol 3 1 (by decide))
      · exact absurd (h3.trans h2.symm) (hcol 3 2 (by decide))
  · -- σ 1 = 3
    rcases hall (σ 2) with h2 | h2 | h2 | h2
    · exact absurd h2 (hne0 2 (by decide))
    · -- σ = (3, 1, 2)
      rcases hall (σ 3) with h3 | h3 | h3 | h3
      · exact absurd h3 (hne0 3 (by decide))
      · exact absurd (h3.trans h2.symm) (hcol 3 2 (by decide))
      · -- σ = (3, 1, 2)
        rcases max3_cases h12 h13 h23 with ⟨ha, hb⟩ | ⟨ha, hb⟩ | ⟨ha, hb⟩
        · rw [interior_test_max2 point (fun t => corners (σ t))
            (by show separation (corners (σ 0)) (corners (σ 1)) <
                  separation (corners (σ 0)) (corners (σ 2))
                rw [h0, h1, h2]; exact hb)
            (by show separation (corners (σ 0)) (corners (σ 3)) <
                  separation (corners (σ 0)) (corners (σ 2))
                rw [h0, h3, h2]; exact ha),
            interior_test_max1 point corners ha hb]
          simp only [h0, h1, h2, h3]
          exact and_congr (specHalf_comm _ _ _ _) (specHalf_comm _ _ _ _)
        · rw [interior_test_max3 point (fun t => corners (σ t))
            (by show separation (corners (σ 0)) (corners (σ 1)) <
                  separation (corners (σ 0)) (corners (σ 3))
                rw [h0, h1, h3]; exact hb)
            (by show separation (corners (σ 0)) (corners (σ 2)) <
                  separation (corners (σ 0)) (corners (σ 3))
                rw [h0, h2, h3]; exact ha),
            interior_test_max2 point corners ha hb]
          simp only [h0, h1, h2, h3]
          exact and_congr (specHalf_comm _ _ _ _) (specHalf_comm _ _ _ _)
        · rw [interior_test_max1 point (fun t => corners (σ t))
            (by show separation (corners (σ 0)) (corners (σ 2)) <
                  separation (corners (σ 0)) (corners (σ 1))
                rw [h0, h2, h1]; exact ha)
            (by show separation (corners (σ 0)) (corners (σ 3)) <
                  separation (corners (σ 0)) (corners (σ 1))
                rw [h0, h3, h1]; exact hb),
            interior_test_max3 point corners ha hb]
          simp only [h0, h1, h2, h3]
      · exact absurd (h3.trans h1.symm) (hcol 3 1 (by decide))
    · -- σ = (3, 2, 1)
      rcases hall (σ 3) with h3 | h3 | h3 | h3
      · exact absurd h3 (hne0 3 (by decide))
      · -- σ = (3, 2, 1)
        rcases max3_cases h12 h13 h23 with ⟨ha, hb⟩ | ⟨ha, hb⟩ | ⟨ha, hb⟩
        · rw [interior_test_max3 point (fun t => corners (σ t))
            (by show separation (corners (σ 0)) (corners (σ 1)) <
                  separation (corners (σ 0)) (corners (σ 3))
                rw [h0, h1, h3]; exact hb)
            (by show separation (corners (σ 0)) (corners (σ 2)) <
                  separation (corners (σ 0)) (corners (σ 3))
                rw [h0, h2, h3]; exact ha),
            interior_test_max1 point corners ha hb]
          simp only [h0, h1, h2, h3]
          exact and_congr (specHalf_comm _ _ _ _) (specHalf_comm _ _ _ _)
        · rw [interior_test_max2 point (fun t => corners (σ t))
            (by show separation (corners (σ 0)) (corners (σ 1)) <
                  separation (corners (σ 0)) (corners (σ 2))
                rw [h0, h1, h2]; exact hb)
            (by show separation (corners (σ 0)) (corners (σ 3)) <
                  separation (corners (σ 0)) (corners (σ 2))
                rw [h0, h3, h2]; exact ha),
            interior_test_max2 point corners ha hb]
          simp only [h0, h1, h2, h3]
          exact and_congr (specHalf_comm _ _ _ _) (specHalf_comm _ _ _ _)
        · rw [interior_test_max1 point (fun t => corners (σ t))
            (by show separation (corners (σ 0)) (corners (σ 2)) <
                  separation (corners (σ 0)) (corners (σ 1))
                rw [h0, h2, h1]; exact hb)
            (by show separation (corners (σ 0)) (corners (σ 3)) <
                  separation (corners (σ 0)) (corners (σ 1))
                rw [h0, h3, h1]; exact ha),
            interior_test_max3 point corners ha hb]
          simp only [h0, h1, h2, h3]
          exact and_congr (specHalf_comm _ _ _ _) (specHalf_comm _ _ _ _)
      · exact absurd (h3.trans h2.symm) (hcol 3 2 (by decide))
      · exact absurd (h3.trans h1.symm) (hcol 3 1 (by decide))
    · exact absurd (h2.trans h1.symm) (hcol 2 1 (by decide))

/-- Degenerate equatorial corner set used against C2 and C3: RA `0`,
`-1.5`, `1.4`, `1.6` radians, all on the equator.  The pair of mutually
farthest corners is (1, 3) (separation 3.1), while the corner farthest from
corner 0 is corner 3 (separation 1.6). -/
def exCorners : Fin 4 → SkyCoord := fun t =>
  match t with
  | 0 => ⟨0, 0⟩
  | 1 => ⟨-1.5, 0⟩
  | 2 => ⟨1.4, 0⟩
  | 3 => ⟨1.6, 0⟩

/-- Equatorial test point at RA `4.76` radians. -/
def exPoint : SkyCoord := ⟨4.76, 0⟩

/-- The corner relabeling that swaps the first two corners. -/
def exSwap : Fin 4 → Fin 4 := fun t =>
  match t with
  | 0 => 1
  | 1 => 0
  | 2 => 2
  | 3 => 3

/-- A corner relabeling fixing the first corner (cycles the rest). -/
def exRot : Fin 4 → Fin 4 := fun t =>
  match t with
  | 0 => 0
  | 1 => 2
  | 2 => 3
  | 3 => 1

theorem separation_equator_abs (r0 r1 : ℝ) (h : |r1 - r0| ≤ Real.pi) :
    separation ⟨r0, 0⟩ ⟨r1, 0⟩ = |r1 - r0| := by
  unfold separation
  rw [sc2xyz_equator, sc2xyz_equator]
  have hd : dotV ⟨Real.cos r0, Real.sin r0, 0⟩ ⟨Real.cos r1, Real.sin r1, 0⟩ =
      Real.cos (r1 - r0) := by
    unfold dotV
    rw [Real.cos_sub]
    ring
  rw [hd, ← Real.cos_abs, Real.arccos_cos (abs_nonneg _) h]

theorem separation_equator_val (r0 r1 v : ℝ) (hv : |r1 - r0| = v) (h1 : v ≤ Real.pi) :
    separation ⟨r0, 0⟩ ⟨r1, 0⟩ = v := by
  rw [separation_equator_abs r0 r1 (by rw [hv]; exact h1), hv]

theorem sep_ex_01 : separation (exCorners 0) (exCorners 1) = 1.5 :=
  separation_equator_val 0 (-1.5) 1.5 (by norm_num)
    (by have := Real.pi_gt_three; linarith)

theorem sep_ex_02 : separation (exCorners 0) (exCorners 2) = 1.4 :=
  separation_equator_val 0 1.4 1.4 (by norm_num)
    (by have := Real.pi_gt_three; linarith)

theorem sep_ex_03 : separation (exCorners 0) (exCorners 3) = 1.6 :=
  separation_equator_val 0 1.6 1.6 (by norm_num)
    (by have := Real.pi_gt_three; linarith)

theorem sep_ex_12 : separation (exCorners 1) (exCorners 2) = 2.9 :=
  separation_equator_val (-1.5) 1.4 2.9 (by norm_num)
    (by have := Real.pi_gt_d2; linarith)

theorem sep_ex_13 : separation (exCorners 1) (exCorners 3) = 3.1 :=
  separation_equator_val (-1.5) 1.6 3.1 (by norm_num)
    (by have := Real.pi_gt_d2; linarith)

theorem sep_ex_23 : separation (exCorners 2) (exCorners 3) = 0.2 :=
  separation_equator_val 1.4 1.6 0.2 (by norm_num)
    (by have := Real.pi_gt_three; linarith)

theorem sep_ex_10 : separation (exCorners 1) (exCorners 0) = 1.5 :=
  separation_equator_val (-1.5) 0 1.5 (by norm_num)
    (by have := Real.pi_gt_three; linarith)

theorem pa_c0_c2 : position_angle (exCorners 0) (exCorners 2) = Real.pi / 2 := by
  apply position_angle_equator_east
  rw [show (1.4 : ℝ) - 0 = 1.4 by norm_num]
  exact Real.sin_pos_of_pos_of_lt_pi (by norm_num) (by have := Real.pi_gt_three; linarith)

theorem pa_c0_c1 : position_angle (exCorners 0) (exCorners 1) = 3 * Real.pi / 2 := by
  apply position_angle_equator_west
  rw [show (-1.5 : ℝ) - 0 = -1.5 by norm_num, Real.sin_neg, neg_neg_iff_pos]
  exact Real.sin_pos_of_pos_of_lt_pi (by norm_num) (by have := Real.pi_gt_three; linarith)

theorem pa_c0_pt : position_angle (exCorners 0) exPoint = 3 * Real.pi / 2 := by
  apply position_angle_equator_west
  rw [show (4.76 : ℝ) - 0 = 4.76 by norm_num]
  exact sin_neg_on_pi_two_pi 4.76 (by have := Real.pi_lt_d2; linarith)
    (by have := Real.pi_gt_three; linarith)

theorem pa_c3_c2 : position_angle (exCorners 3) (exCorners 2) = 3 * Real.pi / 2 := by
  apply position_angle_equator_west
  rw [show (1.4 : ℝ) - 1.6 = -0.2 by norm_num, Real.sin_neg, neg_neg_iff_pos]
  exact Real.sin_pos_of_pos_of_lt_pi (by norm_num) (by have := Real.pi_gt_three; linarith)

theorem pa_c3_c1 : position_angle (exCorners 3) (exCorners 1) = 3 * Real.pi / 2 := by
  apply position_angle_equator_west
  rw [show (-1.5 : ℝ) - 1.6 = -3.1 by norm_num, Real.sin_neg, neg_neg_iff_pos]
  exact Real.sin_pos_of_pos_of_lt_pi (by norm_num) (by have := Real.pi_gt_d2; linarith)

theorem pa_c3_pt : position_angle (exCorners 3) exPoint = 3 * Real.pi / 2 := by
  apply position_angle_equator_west
  rw [show (4.76 : ℝ) - 1.6 = 3.16 by norm_num]
  exact sin_neg_on_pi_two_pi 3.16 (by have := Real.pi_lt_d2; linarith)
    (by have := Real.pi_gt_three; linarith)

theorem pa_c1_c0 : position_angle (exCorners 1) (exCorners 0) = Real.pi / 2 := by
  apply position_angle_equator_east
  rw [show (0 : ℝ) - -1.5 = 1.5 by norm_num]
  exact Real.sin_pos_of_pos_of_lt_pi (by norm_num) (by have := Real.pi_gt_three; linarith)

theorem pa_c1_c2 : position_angle (exCorners 1) (exCorners 2) = Real.pi / 2 := by
  apply position_angle_equator_east
  rw [show (1.4 : ℝ) - -1.5 = 2.9 by norm_num]
  exact Real.sin_pos_of_pos_of_lt_pi (by norm_num) (by have := Real.pi_gt_d2; linarith)

theorem pa_c1_pt : position_angle (exCorners 1) exPoint = 3 * Real.pi / 2 := by
  apply position_angle_equator_west
  rw [show (4.76 : ℝ) - -1.5 = 6.26 by norm_num]
  exact sin_neg_on_pi_two_pi 6.26 (by have := Real.pi_lt_d2; linarith)
    (by have := Real.pi_gt_d2; linarith)

/-- At the degenerate equatorial input, the code's `interior_test`
returns `True`. -/
theorem interior_test_ex : interior_test exPoint exCorners := by
  rw [interior_test_max3 exPoint exCorners (by rw [sep_ex_01, sep_ex_03]; norm_num)
    (by rw [sep_ex_02, sep_ex_03]; norm_num)]
  constructor
  · unfold specHalf
    rw [pa_c0_c1, pa_c0_c2, pa_c0_pt]
    exact paBetween_west_east_west
  · unfold specHalf
    rw [pa_c3_c1, pa_c3_c2, pa_c3_pt]
    exact paBetween_west_west_west

/-- At the same input, the spec's algorithm (diagonal = globally mutually
farthest pair, here corners 1 and 3) returns `False`: the half-test from
corner 1 fails. -/
theorem not_interiorSpecQuad_ex : ¬ interiorSpecQuad exPoint exCorners := by
  simp only [interiorSpecQuad, sep_ex_01, sep_ex_02, sep_ex_03, sep_ex_12, sep_ex_13,
    sep_ex_23]
  rw [if_neg (by norm_num), if_neg (by norm_num), if_neg (by norm_num),
    if_neg (by norm_num), if_pos (by norm_num)]
  intro hcon
  have h1 : specHalf (exCorners 1) (exCorners 0) (exCorners 2) exPoint := hcon.1
  unfold specHalf at h1
  rw [pa_c1_c0, pa_c1_c2, pa_c1_pt] at h1
  exact not_paBetween_east_east_west h1

/-- C2 counterexample: at the degenerate equatorial input the code's
`interior_test` returns `True` while the algorithm described by the claim
(diagonal = the pair of mutually farthest corners under pairwise
great-circle separation) returns `False`; the code instead pairs corner 0
with the corner farthest from corner 0. -/
theorem interior_test_differs_from_spec :
    interior_test exPoint exCorners ∧ ¬ interiorSpecQuad exPoint exCorners :=
  ⟨interior_test_ex, not_interiorSpecQuad_ex⟩

/-- Witness for the amended C2 at the degenerate equatorial input. -/
theorem interior_test_iff_amended_witness :
    (separation (exCorners 0) (exCorners 1) ≠ separation (exCorners 0) (exCorners 2) ∧
      separation (exCorners 0) (exCorners 1) ≠ separation (exCorners 0) (exCorners 3) ∧
      separation (exCorners 0) (exCorners 2) ≠ separation (exCorners 0) (exCorners 3)) ∧
    (interior_test exPoint exCorners ↔ interiorAmendedQuad exPoint exCorners) := by
  have h12 : separation (exCorners 0) (exCorners 1) ≠ separation (exCorners 0) (exCorners 2) := by
    rw [sep_ex_01, sep_ex_02]
    norm_num
  have h13 : separation (exCorners 0) (exCorners 1) ≠ separation (exCorners 0) (exCorners 3) := by
    rw [sep_ex_01, sep_ex_03]
    norm_num
  have h23 : separation (exCorners 0) (exCorners 2) ≠ separation (exCorners 0) (exCorners 3) := by
    rw [sep_ex_02, sep_ex_03]
    norm_num
  exact ⟨⟨h12, h13, h23⟩, interior_test_iff_amended exPoint exCorners h12 h13 h23⟩

/-- C3 counterexample: relabeling the corners by swapping the first two
(a permutation of the corners array) flips the verdict of `interior_test`
at the degenerate equatorial input, refuting invariance under arbitrary
relabeling. -/
theorem interior_test_not_perm_invariant :
    Function.Bijective exSwap ∧ interior_test exPoint exCorners ∧
      ¬ interior_test exPoint fun t => exCorners (exSwap t) := by
  refine ⟨by decide, interior_test_ex, ?_⟩
  have key := interior_test_max3 exPoint (fun t => exCorners (exSwap t))
    (by show separation (exCorners 1) (exCorners 0) <
          separation (exCorners 1) (exCorners 3)
        rw [sep_ex_10, sep_ex_13]
        norm_num)
    (by show separation (exCorners 1) (exCorners 2) <
          separation (exCorners 1) (exCorners 3)
        rw [sep_ex_12, sep_ex_13]
        norm_num)
  rw [key]
  intro hcon
  have h1 : specHalf (exCorners 1) (exCorners 0) (exCorners 2) exPoint := hcon.1
  unfold specHalf at h1
  rw [pa_c1_c0, pa_c1_c2, pa_c1_pt] at h1
  exact not_paBetween_east_east_west h1

/-- Witness for the amended C3: the relabeling cycling the last three
corners (fixing the first) preserves the verdict at the degenerate
equatorial input. -/
theorem interior_test_relabel_witness :
    (Function.Bijective exRot ∧ exRot 0 = 0 ∧
      separation (exCorners 0) (exCorners 1) ≠ separation (exCorners 0) (exCorners 2) ∧
      separation (exCorners 0) (exCorners 1) ≠ separation (exCorners 0) (exCorners 3) ∧
      separation (exCorners 0) (exCorners 2) ≠ separation (exCorners 0) (exCorners 3)) ∧
    ((interior_test exPoint fun t => exCorners (exRot t)) ↔
      interior_test exPoint exCorners) := by
  have h12 : separation (exCorners 0) (exCorners 1) ≠ separation (exCorners 0) (exCorners 2) := by
    rw [sep_ex_01, sep_ex_02]
    norm_num
  have h13 : separation (exCorners 0) (exCorners 1) ≠ separation (exCorners 0) (exCorners 3) := by
    rw [sep_ex_01, sep_ex_03]
    norm_num
  have h23 : separation (exCorners 0) (exCorners 2) ≠ separation (exCorners 0) (exCorners 3) := by
    rw [sep_ex_02, sep_ex_03]
    norm_num
  exact ⟨⟨by decide, rfl, h12, h13, h23⟩,
    interior_test_relabel exPoint exCorners exRot (by decide) rfl h12 h13 h23⟩

end

end SBSearch
